import Mathlib

set_option maxHeartbeats 1000000
set_option maxRecDepth 10000

/-!
Verification of the deterministic workflow execution engine
(`backend/workflows/deterministic_executor.py`) and the quality validator
(`backend/workflows/quality_validator.py`).

Node ids are modelled as `Nat` (the source uses opaque string ids; only
equality is ever used).  Python floats are modelled as `Rat`: every constant
involved (0.5, 0.7, 0.8, 0.1, 0.2) is decimal and only `+`, `-`, `*`, `≥`
occur, and no statement proved here depends on IEEE rounding.  The external
agent runtime is modelled as a function `Nat → Except String NodeResult`
giving, per node, either the executor's output record or the exception it
raises (`_execute_node` delegates to the external `run_agent` collaborator).
-/

/-- `NodeType` from `deterministic_executor.py` (inputNode / agentNode /
toolConnectionNode / mcpNode). -/
inductive NodeType where
  | input
  | agent
  | tool
  | mcp
deriving DecidableEq, Repr

/-- `NodeStatus` from `deterministic_executor.py`. -/
inductive NodeStatus where
  | pending
  | running
  | completed
  | failed
  | skipped
deriving DecidableEq, Repr

/-- A directed edge `source -> target` of the workflow graph.  Edge handles
(`source_handle`/`target_handle`) only influence `_prepare_node_input`, which
feeds the abstracted executor, so they are not modelled. -/
structure Edge where
  source : Nat
  target : Nat
deriving DecidableEq, Repr

/-- One value of the graph dict built for `_execute_graph`: per node its
`type`, `incoming_edges`, `outgoing_edges`, `dependencies` and `dependents`
(the node's `data` dict only feeds the abstracted executor). -/
structure NodeInfo where
  ntype : NodeType
  incoming : List Edge
  outgoing : List Edge
  dependencies : List Nat
  dependents : List Nat
deriving DecidableEq, Repr

/-- The graph dict `Dict[str, Dict[str, Any]]`, as an association list in
insertion order. -/
abbrev Graph := List (Nat × NodeInfo)

/-- Dict lookup `graph[node_id]`. -/
def lookup_node (g : Graph) (n : Nat) : Option NodeInfo :=
  (g.find? (fun p => p.1 == n)).map (·.2)

/-- The key set of the graph dict. -/
def graph_keys (g : Graph) : List Nat := g.map (·.1)

/-- `graph[node_id]['outgoing_edges']` (empty on a missing key: the theorems
below only ever apply it to keys of the graph). -/
def outgoing_of (g : Graph) (n : Nat) : List Edge :=
  match lookup_node g n with
  | some info => info.outgoing
  | none => []

/-- `LoopState` from `deterministic_executor.py`; loop ids `loop_0`,
`loop_1`, … are modelled by their index. -/
structure LoopState where
  loopId : Nat
  currentIteration : Nat
  maxIterations : Nat
  conditionMet : Bool
  loopNodes : List Nat
  entryNode : Nat
  exitConditionNode : Option Nat
deriving DecidableEq, Repr

/-- The `type` tag of a node executor's output record (`'input'`, `'agent'`,
`'tool'`, `'mcp'`, `'file_operation'`). -/
inductive ResultType where
  | input
  | agent
  | tool
  | mcp
  | fileOperation
deriving DecidableEq, Repr

/-- A node executor's output record; `output` models
`node_result.get('output', '')` (empty for non-agent records). -/
structure NodeResult where
  rtype : ResultType
  output : String := ""
deriving DecidableEq, Repr

/-- The events yielded by `_execute_graph`, keeping exactly the payload
fields the claims are about. -/
inductive WorkflowEvent where
  | workflowProgress (completedCount : Nat)
  | nodeRunning (id : Nat)
  | nodeCompleted (id : Nat)
  | nodeFailed (id : Nat) (err : String)
  | workflowFailedNode (id : Nat) (err : String)
  | workflowFailedBound (maxIter : Nat)
  | workflowCompletedAll (total : Nat)
  | workflowCompletedPartial (completedCount : Nat) (pending : List Nat)
  | loopContinuing (loopId : Nat) (iteration : Nat)
  | loopExiting (loopId : Nat) (iteration : Nat)
deriving DecidableEq, Repr

/-- `WorkflowContext` fields used by `_execute_graph` (defaults
`current_iteration = 0`, `max_iterations = 100`, `active_loops = {}`;
`variables`, `node_outputs` and `execution_history` live in the scheduler
state below). -/
structure WorkflowContext where
  currentIteration : Nat := 0
  maxIterations : Nat := 100
  activeLoops : List LoopState := []
deriving Repr

/-- `_find_entry_points`: keys whose `incoming_edges` list is empty, in dict
order. -/
def find_entry_points (g : Graph) : List Nat :=
  (g.filter (fun p => p.2.incoming.isEmpty)).map (·.1)

/-- State of the DFS of `_detect_loops`. -/
structure DetectState where
  loops : List LoopState
  visited : List Nat
  recStack : List Nat
deriving Repr

/-- The inner `dfs` of `_detect_loops`.  Fuel only bounds the recursion
depth; `graph.length + 1` suffices for every graph whose edges stay inside
the key set, and exhausted fuel records nothing. -/
def dfs_detect (g : Graph) : Nat → Nat → List Nat → DetectState → DetectState
  | 0, _, _, s => s
  | fuel + 1, nodeId, path, s =>
    if nodeId ∈ s.recStack then
      let cycleStart := path.indexOf nodeId
      let loopNodes := (path.drop cycleStart).eraseDups
      { s with loops := s.loops ++
          [{ loopId := s.loops.length, currentIteration := 0, maxIterations := 10,
             conditionMet := true, loopNodes := loopNodes, entryNode := nodeId,
             exitConditionNode := none }] }
    else if nodeId ∈ s.visited then s
    else
      let s1 := { s with visited := s.visited ++ [nodeId],
                         recStack := s.recStack ++ [nodeId] }
      let s2 := (outgoing_of g nodeId).foldl
        (fun acc e => dfs_detect g fuel e.target (path ++ [e.target]) acc) s1
      { s2 with recStack := s2.recStack.erase nodeId }

/-- `_detect_loops`: DFS from every unvisited key; each revisit of a node on
the recursion stack records the path suffix as a loop with the revisited node
as `entry_node` and the hard-coded per-loop bound `max_iterations = 10`. -/
def detect_loops (g : Graph) : List LoopState :=
  (g.foldl
    (fun s p => if p.1 ∈ s.visited then s else dfs_detect g (g.length + 1) p.1 [p.1] s)
    { loops := [], visited := [], recStack := [] }).loops

/-- `_get_node_loop`: first active loop whose member set contains the node. -/
def get_node_loop (nodeId : Nat) (activeLoops : List LoopState) : Option LoopState :=
  activeLoops.find? (fun l => l.loopNodes.contains nodeId)

/-- The action dict returned by `_handle_loop_execution`
(`'skip'` is tested by the caller but never produced). -/
inductive LoopAction where
  | continueExec
  | skipNode
  | exitLoop
  | restartLoop
deriving DecidableEq, Repr

/-- `_handle_loop_execution`. -/
def handle_loop_execution (nodeId : Nat) (loop : LoopState) : LoopAction :=
  if loop.maxIterations ≤ loop.currentIteration then .exitLoop
  else if nodeId = loop.entryNode ∧ 0 < loop.currentIteration then .restartLoop
  else .continueExec

/-- Python substring containment `pat in s` on character lists. -/
def sub_list (pat : List Char) : List Char → Bool
  | [] => pat.isEmpty
  | c :: cs => pat.isPrefixOf (c :: cs) || sub_list pat cs

/-- Python `pat in s` for strings. -/
def py_contains (s pat : String) : Bool :=
  sub_list pat.toList s.toList

/-- Python `s.upper()`: character-wise upper-casing (as `String.toUpper`,
written out so that it evaluates inside the kernel). -/
def py_upper (s : String) : String :=
  String.mk (s.data.map Char.toUpper)

/-- The token test of `_check_loop_exit_condition`:
`'STOP' in output or 'COMPLETE' in output or 'DONE' in output` after
`output.upper()`. -/
def has_stop_token (output : String) : Bool :=
  let u := py_upper output
  py_contains u "STOP" || py_contains u "COMPLETE" || py_contains u "DONE"

/-- `_check_loop_exit_condition`. -/
def check_loop_exit_condition (loop : LoopState) (node_result : NodeResult) : Bool :=
  if loop.maxIterations ≤ loop.currentIteration then true
  else if node_result.rtype = ResultType.agent then has_stop_token node_result.output
  else false

/-- `_exit_loop`: collect successors of loop members outside the loop,
append the ones not already queued, and mark every loop member completed.
Returns the updated `(execution_queue, completed_nodes)`. -/
def exit_loop (loop : LoopState) (g : Graph) (queue completed : List Nat) :
    List Nat × List Nat :=
  let exitNodes := loop.loopNodes.foldl
    (fun acc nid =>
      (outgoing_of g nid).foldl
        (fun acc2 e =>
          if e.target ∈ loop.loopNodes ∨ e.target ∈ acc2 then acc2
          else acc2 ++ [e.target]) acc) []
  let queue2 := exitNodes.foldl (fun q n => if n ∈ q then q else q ++ [n]) queue
  let completed2 := loop.loopNodes.foldl (fun c n => if n ∈ c then c else c ++ [n]) completed
  (queue2, completed2)

/-- `_are_dependencies_satisfied`: with a loop, only dependencies outside the
loop's member set must be completed; without one, all of them. -/
def are_dependencies_satisfied (dependencies : List Nat) (completed_nodes : List Nat)
    (current_loop : Option LoopState) : Bool :=
  match current_loop with
  | some loop =>
    (dependencies.filter (fun d => !(loop.loopNodes.contains d))).all
      (fun d => completed_nodes.contains d)
  | none => dependencies.all (fun d => completed_nodes.contains d)

/-- Result of processing a completed node's dependents (queue and active
loops after the `for dependent_id in node_info['dependents']` loop, plus the
`loop_status` events it yields). -/
structure DepProcOut where
  queue : List Nat
  activeLoops : List LoopState
  events : List WorkflowEvent
deriving Repr

/-- Lookup an active loop by id. -/
def get_loop_by_id (loops : List LoopState) (lid : Nat) : Option LoopState :=
  loops.find? (fun l => l.loopId == lid)

/-- `current_loop.current_iteration += 1` (the `LoopState` object lives in
`context.active_loops`, so the increment is applied there). -/
def bump_loop_iteration (loops : List LoopState) (lid : Nat) : List LoopState :=
  loops.map (fun l =>
    if l.loopId = lid then { l with currentIteration := l.currentIteration + 1 } else l)

/-- The dependent-processing loop of `_execute_graph` (lines 678–705): skip
dependents already queued; on reaching the entry node of the current loop,
increment the loop's iteration counter and either emit `loop_status:
exiting` (exit condition met — the entry is not re-enqueued) or emit
`loop_status: continuing` and push the entry at the queue's front; every
other dependent is appended at the tail. -/
def process_dependents (dependents : List Nat) (current_loop : Option LoopState)
    (node_result : NodeResult) (queue : List Nat) (activeLoops : List LoopState) :
    DepProcOut :=
  match dependents with
  | [] => { queue := queue, activeLoops := activeLoops, events := [] }
  | dep :: rest =>
    if dep ∈ queue then process_dependents rest current_loop node_result queue activeLoops
    else
      match current_loop with
      | some cl =>
        if dep = cl.entryNode then
          let loops2 := bump_loop_iteration activeLoops cl.loopId
          let cl2 := (get_loop_by_id loops2 cl.loopId).getD
            { cl with currentIteration := cl.currentIteration + 1 }
          if check_loop_exit_condition cl2 node_result then
            let out := process_dependents rest current_loop node_result queue loops2
            { out with events :=
                WorkflowEvent.loopExiting cl.loopId cl2.currentIteration :: out.events }
          else
            let out := process_dependents rest current_loop node_result (dep :: queue) loops2
            { out with events :=
                WorkflowEvent.loopContinuing cl.loopId cl2.currentIteration :: out.events }
        else process_dependents rest current_loop node_result (queue ++ [dep]) activeLoops
      | none => process_dependents rest current_loop node_result (queue ++ [dep]) activeLoops

/-- Scheduler state of `_execute_graph`: the ready queue, the `completed`
set, the per-node status map, stored node outputs, active loops, the global
iteration counter and bound, the events yielded so far, and whether the
generator has returned early after a node failure. -/
structure SchedState where
  queue : List Nat
  completed : List Nat
  nodeStatus : List (Nat × NodeStatus)
  nodeOutputs : List (Nat × NodeResult)
  activeLoops : List LoopState
  iter : Nat
  maxIter : Nat
  events : List WorkflowEvent
  halted : Bool
deriving Repr

/-- `node_status[current] = s` (keys are pre-seeded with every graph key). -/
def set_status (m : List (Nat × NodeStatus)) (n : Nat) (s : NodeStatus) :
    List (Nat × NodeStatus) :=
  m.map (fun p => if p.1 = n then (n, s) else p)

/-- `context.node_outputs[current] = result` (dict upsert). -/
def set_output (m : List (Nat × NodeResult)) (n : Nat) (r : NodeResult) :
    List (Nat × NodeResult) :=
  if m.any (fun p => p.1 == n) then m.map (fun p => if p.1 = n then (n, r) else p)
  else m ++ [(n, r)]

/-- Lines 633–731 of `_execute_graph`: the dependency gate (tail re-enqueue
when unmet), the `running` event, the executor call, and — on success — the
output store, the conditional `completed` insertion (deferred inside a
loop), the `completed` event, dependent processing and the progress event;
on executor failure the `failed` node and workflow events and an immediate
generator return (`halted`). -/
def execute_node_step (g : Graph) (execf : Nat → Except String NodeResult)
    (st : SchedState) (current : Nat) (current_loop : Option LoopState) : SchedState :=
  match lookup_node g current with
  | none => st
  | some info =>
    if !(are_dependencies_satisfied info.dependencies st.completed current_loop) then
      { st with queue := st.queue ++ [current] }
    else
      let st1 := { st with nodeStatus := set_status st.nodeStatus current .running,
                           events := st.events ++ [WorkflowEvent.nodeRunning current] }
      match execf current with
      | .error e =>
        { st1 with nodeStatus := set_status st1.nodeStatus current .failed,
                   events := st1.events ++
                     [WorkflowEvent.nodeFailed current e, WorkflowEvent.workflowFailedNode current e],
                   halted := true }
      | .ok res =>
        let completed2 := if current_loop.isNone then st1.completed ++ [current] else st1.completed
        let st2 := { st1 with nodeOutputs := set_output st1.nodeOutputs current res,
                              completed := completed2,
                              nodeStatus := set_status st1.nodeStatus current .completed,
                              events := st1.events ++ [WorkflowEvent.nodeCompleted current] }
        let dp := process_dependents info.dependents current_loop res st2.queue st2.activeLoops
        { st2 with queue := dp.queue, activeLoops := dp.activeLoops,
                   events := st2.events ++ dp.events ++
                     [WorkflowEvent.workflowProgress completed2.length] }

/-- The `while execution_queue and context.current_iteration <
context.max_iterations` loop of `_execute_graph`.  The counter increments by
exactly one per pass, so fuel `maxIter - iter + 1` makes the fuel case
unreachable; a halted state models the generator having returned. -/
def run_while (g : Graph) (execf : Nat → Except String NodeResult) :
    Nat → SchedState → SchedState
  | 0, st => st
  | fuel + 1, st =>
    if st.halted then st
    else
      match st.queue with
      | [] => st
      | current :: rest =>
        if st.maxIter ≤ st.iter then st
        else
          let st1 := { st with iter := st.iter + 1, queue := rest }
          match get_node_loop current st1.activeLoops with
          | some cl =>
            match handle_loop_execution current cl with
            | .skipNode => run_while g execf fuel st1
            | .exitLoop =>
              let qc := exit_loop cl g st1.queue st1.completed
              run_while g execf fuel { st1 with queue := qc.1, completed := qc.2 }
            | .restartLoop =>
              run_while g execf fuel { st1 with queue := cl.entryNode :: st1.queue }
            | .continueExec =>
              run_while g execf fuel (execute_node_step g execf st1 current (some cl))
          | none =>
            if current ∈ st1.completed then run_while g execf fuel st1
            else run_while g execf fuel (execute_node_step g execf st1 current none)

/-- Lines 733–751 of `_execute_graph`: the terminal `workflow_status` event
(skipped when the generator already returned after a node failure). -/
def finalize_events (g : Graph) (st : SchedState) : SchedState :=
  if st.halted then st
  else if st.maxIter ≤ st.iter then
    { st with events := st.events ++ [WorkflowEvent.workflowFailedBound st.maxIter] }
  else if st.completed.length = g.length then
    { st with events := st.events ++ [WorkflowEvent.workflowCompletedAll st.completed.length] }
  else
    let pending := (st.nodeStatus.filter (fun p => p.2 == NodeStatus.pending)).map (·.1)
    { st with events := st.events ++
        [WorkflowEvent.workflowCompletedPartial st.completed.length pending] }

/-- `_execute_graph`: detect loops, seed the queue with the entry points,
run the scheduling loop, and emit the terminal status event. -/
def execute_graph (g : Graph) (execf : Nat → Except String NodeResult)
    (entry_points : List Nat) (ctx : WorkflowContext) : SchedState :=
  let loops := ctx.activeLoops ++ detect_loops g
  let st0 : SchedState :=
    { queue := entry_points,
      completed := [],
      nodeStatus := g.map (fun p => (p.1, NodeStatus.pending)),
      nodeOutputs := [],
      activeLoops := loops,
      iter := ctx.currentIteration,
      maxIter := ctx.maxIterations,
      events := [.workflowProgress 0],
      halted := false }
  finalize_events g (run_while g execf (ctx.maxIterations - ctx.currentIteration + 1) st0)

/-- All `(source, target)` pairs of the graph's outgoing edge lists. -/
def edge_pairs (g : Graph) : List (Nat × Nat) :=
  g.foldr (fun p acc => (p.2.outgoing.map (fun e => (e.source, e.target))) ++ acc) []

/-- The direct dependency edge relation of the graph. -/
def EdgeRel (g : Graph) (u v : Nat) : Prop := (u, v) ∈ edge_pairs g

/-- The graph has no directed cycle: no node reaches itself through a
nonempty edge path. -/
def Acyclic (g : Graph) : Prop := ∀ n, ¬ Relation.TransGen (EdgeRel g) n n

/-- The invariant the graph dict satisfies by construction (spec §3:
"dependencies/dependents are the transitive-free direct-neighbor sets
implied by edges"), which `_execute_graph` relies on: keys are distinct,
each node's incoming/outgoing lists hold exactly its own edges with
endpoints inside the key set, the dependency/dependent sets are the
sources/targets of those lists, and every edge appears consistently on both
of its endpoints. -/
def WellFormed (g : Graph) : Prop :=
  (graph_keys g).Nodup ∧
  (∀ p ∈ g, ∀ e ∈ p.2.incoming, e.target = p.1 ∧ e.source ∈ graph_keys g) ∧
  (∀ p ∈ g, ∀ e ∈ p.2.outgoing, e.source = p.1 ∧ e.target ∈ graph_keys g) ∧
  (∀ p ∈ g, ∀ d ∈ p.2.dependencies, ∃ e ∈ p.2.incoming, e.source = d) ∧
  (∀ p ∈ g, ∀ e ∈ p.2.incoming, e.source ∈ p.2.dependencies) ∧
  (∀ p ∈ g, ∀ m ∈ p.2.dependents, ∃ e ∈ p.2.outgoing, e.target = m) ∧
  (∀ p ∈ g, ∀ e ∈ p.2.outgoing, e.target ∈ p.2.dependents) ∧
  (∀ p ∈ g, ∀ e ∈ p.2.outgoing, ∃ q ∈ g, q.1 = e.target ∧ e ∈ q.2.incoming) ∧
  (∀ p ∈ g, ∀ e ∈ p.2.incoming, ∃ q ∈ g, q.1 = e.source ∧ e ∈ q.2.outgoing)

instance (g : Graph) : Decidable (WellFormed g) := by
  unfold WellFormed
  infer_instance

/-- `GraphError` (spec §7: "no entry points, malformed edge reference"). -/
inductive GraphError where
  | noEntryPoints
  | badEdge (e : Edge)
deriving DecidableEq, Repr

/-- Modelled from the spec: the Graph Builder of spec §4.1 is not under
`src/` (the executor receives the graph dict already built), so it is
modelled from the spec's words: "Builds incoming/outgoing edge sets per
node; dependency set of a node = set of edge sources pointing to it;
dependent set = set of edge targets it points to. … Entry points: nodes
with an empty incoming-edge set. Fails with `GraphError` if there are zero
entry points and the graph is non-empty (no way to start execution)."  A
`GraphError` result means the run never starts (spec §7: "fatal at build
time; run never starts"). -/
def build_graph (ns : List (Nat × NodeType)) (es : List Edge) : Except GraphError Graph :=
  let keys := ns.map (·.1)
  match es.find? (fun e => !(keys.contains e.source) || !(keys.contains e.target)) with
  | some e => .error (.badEdge e)
  | none =>
    let g : Graph := ns.map (fun p =>
      (p.1,
        { ntype := p.2,
          incoming := es.filter (fun e => e.target == p.1),
          outgoing := es.filter (fun e => e.source == p.1),
          dependencies := (es.filter (fun e => e.target == p.1)).map (·.source),
          dependents := (es.filter (fun e => e.source == p.1)).map (·.target) }))
    if ns ≠ [] ∧ find_entry_points g = [] then .error .noEntryPoints
    else .ok g

/-! ### Quality validator (`quality_validator.py`) -/

/-- `ValidationResult` from `quality_validator.py`. -/
inductive ValidationResult where
  | passed
  | failed
  | needsCorrection
deriving DecidableEq, Repr

/-- `QualityCheckResult` from `quality_validator.py`. -/
structure QualityCheckResult where
  result : ValidationResult
  score : Rat
  issues : List String
  suggestions : List String
  validationPrompt : Option String := none
  correctedOutput : Option String := none
  correctionPrompt : Option String := none
deriving DecidableEq, Repr

/-- The `needs_correction` property of `QualityCheckResult`. -/
def QualityCheckResult.needs_correction (r : QualityCheckResult) : Bool :=
  r.result = ValidationResult.needsCorrection

/-- `execute_workflow` line 192: the correction phase runs exactly when
`quality_result.needs_correction` is truthy. -/
def correction_triggered (r : QualityCheckResult) : Bool :=
  r.needs_correction

/-- The per-criterion `issues`/`suggestions` of a parsed rubric verdict. -/
structure CriterionData where
  issues : List String := []
  suggestions : List String := []
deriving DecidableEq, Repr

/-- A successfully `json.loads`-ed rubric verdict dict; `none` fields model
absent keys (the code reads them with `.get` and a default). -/
structure VerdictData where
  overallScore : Option Rat := none
  needsCorrectionFlag : Option Bool := none
  templateAdherence : Option CriterionData := none
  financialConsistency : Option CriterionData := none
  completeness : Option CriterionData := none
  dataAccuracy : Option CriterionData := none
  overallAssessment : Option String := none
deriving Repr

/-- The issues/suggestions of one criterion if its key is present. -/
def criterion_lists (c : Option CriterionData) : List String × List String :=
  match c with
  | some d => (d.issues, d.suggestions)
  | none => ([], [])

/-- Lines 244–276 of `_parse_validation_response`: defaults
`overall_score = 0.5` and `needs_correction = False`, issue/suggestion
collection over the four criteria in fixed order, the `Overall:` suffix,
and the decision rule `score ≥ 0.8 and not needs_correction ⇒ PASSED`,
`elif needs_correction ⇒ NEEDS_CORRECTION`, `else ⇒ FAILED`. -/
def build_result_from_verdict (v : VerdictData) (validation_prompt : String) :
    QualityCheckResult :=
  let overallScore := v.overallScore.getD (1 / 2)
  let needsCorrection := v.needsCorrectionFlag.getD false
  let crits := [criterion_lists v.templateAdherence, criterion_lists v.financialConsistency,
                criterion_lists v.completeness, criterion_lists v.dataAccuracy]
  let allIssues := crits.foldl (fun acc c => acc ++ c.1) []
  let sugg0 := crits.foldl (fun acc c => acc ++ c.2) []
  let oa := v.overallAssessment.getD ""
  let allSuggestions := if oa ≠ "" then sugg0 ++ ["Overall: " ++ oa] else sugg0
  let result :=
    if (8 : Rat) / 10 ≤ overallScore ∧ needsCorrection = false then ValidationResult.passed
    else if needsCorrection then ValidationResult.needsCorrection
    else ValidationResult.failed
  { result := result, score := overallScore, issues := allIssues,
    suggestions := allSuggestions, validationPrompt := some validation_prompt }

/-- The fallback result at the end of `_parse_validation_response`
(returned when no JSON verdict could be extracted and parsed). -/
def parse_fallback_result (validation_prompt : String) : QualityCheckResult :=
  { result := ValidationResult.needsCorrection, score := 1 / 2,
    issues := ["Could not parse validation response"],
    suggestions := ["Manual review recommended"],
    validationPrompt := some validation_prompt }

/-- Python `s.find(c)`: index of the first occurrence, if any. -/
def py_find_char (cs : List Char) (c : Char) : Option Nat :=
  cs.findIdx? (fun x => x == c)

/-- Python `s.rfind(c)`: index of the last occurrence, if any. -/
def py_rfind_char (cs : List Char) (c : Char) : Option Nat :=
  match py_find_char cs.reverse c with
  | none => none
  | some i => some (cs.length - 1 - i)

/-- Lines 237–241 of `_parse_validation_response`:
`json_start = response.find('{')`, `json_end = response.rfind('}') + 1`,
and the slice `response[json_start:json_end]` when
`json_start != -1 and json_end > json_start`. -/
def extract_json_slice (response : String) : Option String :=
  let cs := response.toList
  match py_find_char cs (Char.ofNat 123), py_rfind_char cs (Char.ofNat 125) with
  | some jsonStart, some lastBrace =>
    let jsonEnd := lastBrace + 1
    if jsonStart < jsonEnd then
      some (String.mk ((cs.drop jsonStart).take (jsonEnd - jsonStart)))
    else none
  | some _, none => none
  | none, _ => none

/-- `_parse_validation_response`.  `parse_json` models `json.loads` plus the
dict-shaped reads on its result; any exception there is caught by the
enclosing `try` and yields the fallback result, as does the absence of a
brace-delimited slice. -/
def parse_validation_response (parse_json : String → Option VerdictData)
    (response validation_prompt : String) : QualityCheckResult :=
  match extract_json_slice response with
  | some js =>
    match parse_json js with
    | some v => build_result_from_verdict v validation_prompt
    | none => parse_fallback_result validation_prompt
  | none => parse_fallback_result validation_prompt

/-- `_basic_validation` (the local heuristic fallback).
`extract_sections` abstracts the header-extraction regex of
`_extract_sections`; no theorem below depends on its value. -/
def basic_validation (extract_sections : String → List String)
    (output_content : String) (template_content : Option String) : QualityCheckResult :=
  let issues0 : List String := []
  let score0 : Rat := 7 / 10
  let step1 :=
    if output_content.length < 100 then
      (issues0 ++ ["Output content is too short"], score0 - 2 / 10)
    else (issues0, score0)
  let step2 :=
    match template_content with
    | some t =>
      if 100 < t.length then
        let missing := ((extract_sections t).eraseDups).filter
          (fun s => !((extract_sections output_content).contains s))
        if missing ≠ [] then
          (step1.1 ++ ["Missing template sections: " ++ String.intercalate ", " missing],
           step1.2 - (1 / 10) * (missing.length : Rat))
        else step1
      else step1
    | none => step1
  let suggestions :=
    if step2.1 = [] then ["Output appears to meet basic quality criteria"]
    else ["Address the identified issues to improve quality"]
  let result :=
    if (8 : Rat) / 10 ≤ step2.2 then ValidationResult.passed
    else ValidationResult.needsCorrection
  { result := result, score := max 0 step2.2, issues := step2.1,
    suggestions := suggestions }

/-- `_perform_llm_validation`: the LLM call outcome is an exception (then
the heuristic `_basic_validation` is the fallback) or a response string
(then `_parse_validation_response` handles it, and never raises). -/
def perform_llm_validation (parse_json : String → Option VerdictData)
    (extract_sections : String → List String)
    (llm_call : Except String String) (output_content : String)
    (template_content : Option String) (validation_prompt : String) : QualityCheckResult :=
  match llm_call with
  | .error _ => basic_validation extract_sections output_content template_content
  | .ok response => parse_validation_response parse_json response validation_prompt

/-! ### Concrete instances used by counterexamples and witnesses -/

/-- A graph consisting of a single self-loop node (edge `0 → 0`). -/
def selfLoopGraph : Graph :=
  [(0, { ntype := .agent,
         incoming := [{ source := 0, target := 0 }],
         outgoing := [{ source := 0, target := 0 }],
         dependencies := [0], dependents := [0] })]

/-- An agent executor whose output never contains a stop token. -/
def agentExecKeepGoing : Nat → Except String NodeResult :=
  fun _ => .ok { rtype := .agent, output := "keep going" }

/-- An always-succeeding agent executor. -/
def agentExecOk : Nat → Except String NodeResult :=
  fun _ => .ok { rtype := .agent, output := "ok" }

/-- An executor that always raises. -/
def execBoom : Nat → Except String NodeResult :=
  fun _ => .error "boom"

/-- An isolated node (no edges). -/
def isolatedNode (i : Nat) : Nat × NodeInfo :=
  (i, { ntype := .agent, incoming := [], outgoing := [], dependencies := [], dependents := [] })

/-- 101 isolated nodes: an acyclic graph needing 101 scheduler steps, one
more than the default global iteration bound of 100. -/
def isolated101 : Graph := (List.range 101).map isolatedNode

/-- A single isolated node. -/
def singleNodeGraph : Graph := [isolatedNode 0]

/-- Two isolated nodes. -/
def twoIsolated : Graph := [isolatedNode 0, isolatedNode 1]

/-- A diamond DAG `0 → 1 → 3`, `0 → 2 → 3`. -/
def diamondGraph : Graph :=
  [ (0, { ntype := .input, incoming := [],
          outgoing := [{ source := 0, target := 1 }, { source := 0, target := 2 }],
          dependencies := [], dependents := [1, 2] }),
    (1, { ntype := .agent, incoming := [{ source := 0, target := 1 }],
          outgoing := [{ source := 1, target := 3 }],
          dependencies := [0], dependents := [3] }),
    (2, { ntype := .agent, incoming := [{ source := 0, target := 2 }],
          outgoing := [{ source := 2, target := 3 }],
          dependencies := [0], dependents := [3] }),
    (3, { ntype := .tool, incoming := [{ source := 1, target := 3 }, { source := 2, target := 3 }],
          outgoing := [], dependencies := [1, 2], dependents := [] }) ]

/-- A 120-character output, longer than the heuristic validator's 100
character minimum. -/
def longOutput : String := String.mk (List.replicate 120 (Char.ofNat 120))

/-- A sample loop state: members `{5, 6}`, entry node `5`, fresh counter. -/
def demoLoop : LoopState :=
  { loopId := 0, currentIteration := 0, maxIterations := 10, conditionMet := true,
    loopNodes := [5, 6], entryNode := 5, exitConditionNode := none }

/-- No `node_status: failed` and no failed `workflow_status` event caused by
a node error occurs in the event list. -/
def no_failure_events (evs : List WorkflowEvent) : Prop :=
  ∀ ev ∈ evs, (∀ n err, ev ≠ WorkflowEvent.nodeFailed n err) ∧
              (∀ n err, ev ≠ WorkflowEvent.workflowFailedNode n err)

/-- The event trace ends with the three events of a node failure — a
`node_status: failed` for the node immediately preceded by its
`node_status: running` and immediately followed by the final
`workflow_status: failed`, with no failure event anywhere before — and the
failing node's executor raised the recorded error. -/
def failure_shape (execf : Nat → Except String NodeResult)
    (evs : List WorkflowEvent) : Prop :=
  ∃ c e pre, execf c = Except.error e ∧ no_failure_events pre ∧
    evs = pre ++ [WorkflowEvent.nodeRunning c, WorkflowEvent.nodeFailed c e,
                  WorkflowEvent.workflowFailedNode c e]

/-- The invariant maintained by the scheduling loop on an acyclic graph
(no active loops, no failure yet, queue and completed set inside the key
set, every unfinished node is queued or blocked on an unfinished
dependency, event counts match the completed set, and completed events
respect the dependency order). -/
def SInv (g : Graph) (st : SchedState) : Prop :=
  st.activeLoops = [] ∧
  st.halted = false ∧
  st.completed.Nodup ∧
  (∀ n ∈ st.completed, n ∈ graph_keys g) ∧
  (∀ n ∈ st.queue, n ∈ graph_keys g) ∧
  (∀ n ∈ graph_keys g, n ∉ st.completed →
    n ∈ st.queue ∨ ∃ d, EdgeRel g d n ∧ d ∉ st.completed) ∧
  (∀ n, st.events.count (WorkflowEvent.nodeCompleted n) =
    if n ∈ st.completed then 1 else 0) ∧
  (∀ n, st.events.count (WorkflowEvent.nodeRunning n) =
    if n ∈ st.completed then 1 else 0) ∧
  (∀ (i v : Nat), st.events[i]? = some (WorkflowEvent.nodeCompleted v) →
    ∀ u, EdgeRel g u v →
      ∃ j : Nat, j < i ∧ st.events[j]? = some (WorkflowEvent.nodeCompleted u))

/-! ### Helper lemmas -/

/-- `List.contains` agrees with membership. -/
theorem contains_iff_mem_nat (l : List Nat) (a : Nat) : l.contains a = true ↔ a ∈ l := by
  exact List.elem_iff

/-- Looking a loop up after bumping its iteration counter returns the bumped
loop. -/
theorem get_loop_by_id_bump (loops : List LoopState) (lid : Nat) (loop : LoopState)
    (h : get_loop_by_id loops lid = some loop) :
    get_loop_by_id (bump_loop_iteration loops lid) lid =
      some { loop with currentIteration := loop.currentIteration + 1 } := by
  induction loops with
  | nil => simp [get_loop_by_id] at h
  | cons a tl ih =>
    by_cases ha : a.loopId = lid
    · have h1 : get_loop_by_id (a :: tl) lid = some a := by
        unfold get_loop_by_id
        rw [List.find?_cons_of_pos]
        simpa using ha
      rw [h1] at h
      injection h with h
      subst h
      unfold bump_loop_iteration get_loop_by_id
      rw [List.map_cons, if_pos ha, List.find?_cons_of_pos]
      simpa using ha
    · have h1 : get_loop_by_id (a :: tl) lid = get_loop_by_id tl lid := by
        unfold get_loop_by_id
        rw [List.find?_cons_of_neg]
        simpa using ha
      rw [h1] at h
      have h2 := ih h
      unfold bump_loop_iteration get_loop_by_id at h2 ⊢
      rw [List.map_cons, if_neg ha, List.find?_cons_of_neg]
      · exact h2
      · simpa using ha

/-! ### C10 -/

/-- The Passed/NeedsCorrection decision on a score of at most 0.7 is
NeedsCorrection, and its clamped value stays at most 0.7. -/
theorem heuristic_leaf (S : Rat) (hS : S ≤ 7 / 10) :
    ((if (8 : Rat) / 10 ≤ S then ValidationResult.passed
      else ValidationResult.needsCorrection) = ValidationResult.needsCorrection) ∧
    max 0 S ≤ 7 / 10 := by
  constructor
  · rw [if_neg]
    intro hc
    linarith
  · exact max_le (by norm_num) hS

/-- C10: for every output content and every template (including none), the
local heuristic fallback `_basic_validation` returns a result that is never
Passed and never Failed: its score starts at 0.7 and is only ever
decreased, Passed requires a score ≥ 0.8, and the only other result it can
produce is NeedsCorrection. -/
theorem c10_basic_validation_never_passes_nor_fails
    (extract_sections : String → List String) (output_content : String)
    (template_content : Option String) :
    (basic_validation extract_sections output_content template_content).result =
      ValidationResult.needsCorrection ∧
    (basic_validation extract_sections output_content template_content).score ≤ 7 / 10 := by
  unfold basic_validation
  dsimp only
  rcases template_content with _ | t
  · by_cases hlen : output_content.length < 100 <;>
      simp only [hlen, ite_true, ite_false] <;>
      exact heuristic_leaf _ (by norm_num)
  · have hM0 : (0 : Rat) ≤ (1 / 10) *
        ((((extract_sections t).eraseDups).filter
          (fun s => !((extract_sections output_content).contains s))).length : Rat) := by
      positivity
    by_cases hlen : output_content.length < 100 <;>
      by_cases htl : 100 < t.length <;>
      by_cases hm : (((extract_sections t).eraseDups).filter
        (fun s => !((extract_sections output_content).contains s))) = [] <;>
      simp only [hlen, htl, hm, ite_true, ite_false, ne_eq, not_true_eq_false,
        not_false_eq_true] <;>
      exact heuristic_leaf _ (by linarith)

/-! ### C9 -/

/-- C9 counterexample: a rubric verdict with score 0.5 and an explicit
correction flag of `false` is classified Failed, and a Failed verdict does
NOT trigger the corrective pass (only `needs_correction`, i.e. the
NeedsCorrection result, does) — refuting the claim that a Failed verdict
triggers the single corrective pass the same way NeedsCorrection does. -/
theorem c9_counterexample :
    (build_result_from_verdict
        { overallScore := some (1 / 2), needsCorrectionFlag := some false } "p").result =
      ValidationResult.failed ∧
    correction_triggered (build_result_from_verdict
        { overallScore := some (1 / 2), needsCorrectionFlag := some false } "p") = false ∧
    (build_result_from_verdict
        { overallScore := some (1 / 2), needsCorrectionFlag := some true } "p").result =
      ValidationResult.needsCorrection ∧
    correction_triggered (build_result_from_verdict
        { overallScore := some (1 / 2), needsCorrectionFlag := some true } "p") = true := by
  have h8 : ¬ ((8 : Rat) / 10 ≤ 1 / 2) := by norm_num
  have hr1 : (build_result_from_verdict
      { overallScore := some (1 / 2), needsCorrectionFlag := some false } "p").result =
      ValidationResult.failed := by
    unfold build_result_from_verdict
    dsimp only [Option.getD]
    rw [if_neg (fun hc => h8 hc.1)]
    simp
  have hr2 : (build_result_from_verdict
      { overallScore := some (1 / 2), needsCorrectionFlag := some true } "p").result =
      ValidationResult.needsCorrection := by
    unfold build_result_from_verdict
    dsimp only [Option.getD]
    rw [if_neg (fun hc => by simpa using hc.2)]
    simp
  refine ⟨hr1, ?_, hr2, ?_⟩
  · unfold correction_triggered QualityCheckResult.needs_correction
    rw [hr1]
    simp
  · unfold correction_triggered QualityCheckResult.needs_correction
    rw [hr2]
    simp

/-- C9 (amended): the decision rule is `score ≥ 0.8` with no correction flag
⇒ Passed, an explicit correction flag ⇒ NeedsCorrection, otherwise Failed;
and the corrective pass is triggered exactly by a NeedsCorrection verdict —
a Failed verdict does not trigger it. -/
theorem c9_decision_rule (v : VerdictData) (vp : String) :
    ((build_result_from_verdict v vp).result = ValidationResult.passed ↔
      ((8 : Rat) / 10 ≤ v.overallScore.getD (1 / 2) ∧
        v.needsCorrectionFlag.getD false = false)) ∧
    ((build_result_from_verdict v vp).result = ValidationResult.needsCorrection ↔
      v.needsCorrectionFlag.getD false = true) ∧
    ((build_result_from_verdict v vp).result = ValidationResult.failed ↔
      (v.overallScore.getD (1 / 2) < 8 / 10 ∧
        v.needsCorrectionFlag.getD false = false)) ∧
    (correction_triggered (build_result_from_verdict v vp) = true ↔
      (build_result_from_verdict v vp).result = ValidationResult.needsCorrection) := by
  unfold build_result_from_verdict correction_triggered QualityCheckResult.needs_correction
  dsimp only
  set sc := v.overallScore.getD (1 / 2) with hsc
  set fl := v.needsCorrectionFlag.getD false with hfl
  by_cases hf : fl = true
  · have hcond : ¬ ((8 : Rat) / 10 ≤ sc ∧ fl = false) := by
      intro hc
      rw [hf] at hc
      exact absurd hc.2 (by simp)
    rw [if_neg hcond, if_pos hf]
    refine ⟨?_, ?_, ?_, ?_⟩ <;> simp [hf]
  · have hf' : fl = false := by
      cases hfv : fl
      · rfl
      · exact absurd hfv hf
    by_cases hs : (8 : Rat) / 10 ≤ sc
    · rw [if_pos ⟨hs, hf'⟩]
      have hs2 : ¬ (sc < 8 / 10) := not_lt.mpr hs
      refine ⟨?_, ?_, ?_, ?_⟩ <;> simp [hf', hs, hs2]
    · rw [if_neg (fun hc => hs hc.1), if_neg (by rw [hf']; simp)]
      have hs2 : sc < 8 / 10 := not_le.mp hs
      refine ⟨?_, ?_, ?_, ?_⟩ <;> simp [hf', hs, hs2]

/-! ### C8 -/

/-- C8 counterexample: on a parse failure (an LLM response with no JSON
braces) the validator returns the fixed fallback result with score 0.5 —
not the local heuristic check's result, which for this 120-character
output with no template has score 0.7.  This refutes the claim that a parse
failure degrades to the local heuristic check. -/
theorem c8_counterexample :
    perform_llm_validation (fun _ => none) (fun _ => []) (Except.ok "no json here")
        longOutput none "vp" ≠ basic_validation (fun _ => []) longOutput none ∧
    (perform_llm_validation (fun _ => none) (fun _ => []) (Except.ok "no json here")
        longOutput none "vp").score = 1 / 2 ∧
    (basic_validation (fun _ => []) longOutput none).score = 7 / 10 := by
  have hslice : extract_json_slice "no json here" = none := by decide
  have h1 : perform_llm_validation (fun _ => none) (fun _ => []) (Except.ok "no json here")
      longOutput none "vp" = parse_fallback_result "vp" := by
    unfold perform_llm_validation parse_validation_response
    dsimp only
    rw [hslice]
  have hlen : ¬ (longOutput.length < 100) := by decide
  have h3 : (basic_validation (fun _ => []) longOutput none).score = 7 / 10 := by
    unfold basic_validation
    dsimp only
    simp only [hlen, ite_false]
    exact max_eq_right (by norm_num)
  have h2 : (perform_llm_validation (fun _ => none) (fun _ => []) (Except.ok "no json here")
      longOutput none "vp").score = 1 / 2 := by
    rw [h1]
    rfl
  refine ⟨?_, h2, h3⟩
  intro heq
  have hcon : (1 : Rat) / 2 = 7 / 10 := by rw [← h2, heq, h3]
  norm_num at hcon

/-- C8 (amended): when the Judge cannot parse the rubric verdict (no
brace-delimited JSON slice, or the slice does not parse), it returns the
fixed NeedsCorrection fallback result with score 0.5 — the failure is
never escalated to the caller; the local heuristic check is instead the
fallback when the LLM validation call itself raises. -/
theorem c8_parse_failure_fallback (parse_json : String → Option VerdictData)
    (extract_sections : String → List String) (out : String) (tmpl : Option String)
    (vp response : String)
    (h : extract_json_slice response = none ∨
         ∀ js, extract_json_slice response = some js → parse_json js = none) :
    perform_llm_validation parse_json extract_sections (Except.ok response) out tmpl vp =
      parse_fallback_result vp ∧
    (perform_llm_validation parse_json extract_sections (Except.ok response) out tmpl
        vp).result = ValidationResult.needsCorrection ∧
    (∀ err, perform_llm_validation parse_json extract_sections (Except.error err) out tmpl vp =
      basic_validation extract_sections out tmpl) := by
  have hmain : perform_llm_validation parse_json extract_sections (Except.ok response) out tmpl vp =
      parse_fallback_result vp := by
    rcases h with h | h
    · unfold perform_llm_validation parse_validation_response
      dsimp only
      rw [h]
    · unfold perform_llm_validation parse_validation_response
      dsimp only
      cases hslice : extract_json_slice response with
      | none => rfl
      | some js =>
        dsimp only
        rw [h js hslice]
  exact ⟨hmain, by rw [hmain]; rfl, fun err => rfl⟩

/-- C8 witness: a concrete parse-failure run hitting the fallback. -/
theorem c8_parse_failure_fallback_witness :
    (extract_json_slice "no json here" = none ∨
      ∀ js, extract_json_slice "no json here" = some js →
        (fun _ => (none : Option VerdictData)) js = none) ∧
    (perform_llm_validation (fun _ => none) (fun _ => []) (Except.ok "no json here")
        longOutput none "vp" = parse_fallback_result "vp" ∧
      (perform_llm_validation (fun _ => none) (fun _ => []) (Except.ok "no json here")
          longOutput none "vp").result = ValidationResult.needsCorrection ∧
      (∀ err, perform_llm_validation (fun _ => none) (fun _ => [])
          (Except.error err) longOutput none "vp" =
        basic_validation (fun _ => []) longOutput none)) :=
  ⟨Or.inl (by decide),
   c8_parse_failure_fallback (fun _ => none) (fun _ => []) longOutput none "vp"
     "no json here" (Or.inl (by decide))⟩

/-! ### C6 -/

/-- C6: for a node inside a loop region, `_are_dependencies_satisfied`
requires exactly the dependencies outside the loop's member set to be
completed; in particular a node all of whose dependencies are
loop-internal is eligible with any completed set (no deadlock inside
cyclic regions). -/
theorem c6_loop_dependency_gate :
    (∀ (dependencies completed : List Nat) (loop : LoopState),
      (are_dependencies_satisfied dependencies completed (some loop) = true ↔
        ∀ d ∈ dependencies, d ∉ loop.loopNodes → d ∈ completed)) ∧
    (∀ (dependencies completed : List Nat) (loop : LoopState),
      (∀ d ∈ dependencies, d ∈ loop.loopNodes) →
      are_dependencies_satisfied dependencies completed (some loop) = true) := by
  have h1 : ∀ (dependencies completed : List Nat) (loop : LoopState),
      (are_dependencies_satisfied dependencies completed (some loop) = true ↔
        ∀ d ∈ dependencies, d ∉ loop.loopNodes → d ∈ completed) := by
    intro deps completed loop
    unfold are_dependencies_satisfied
    simp [List.all_eq_true, List.mem_filter, List.elem_iff]
    constructor
    · intro hall d hd hn
      rcases hall d hd with hmem | hc
      · exact absurd hmem hn
      · exact hc
    · intro hall d hd
      by_cases hx : d ∈ loop.loopNodes
      · exact Or.inl hx
      · exact Or.inr (hall d hd hx)
  refine ⟨h1, fun deps completed loop hall => (h1 deps completed loop).mpr ?_⟩
  intro d hd hnot
  exact absurd (hall d hd) hnot

/-- C6 witness: node `5`'s only dependency is the loop-internal node `6`;
the gate passes with an empty completed set. -/
theorem c6_loop_dependency_gate_witness :
    (are_dependencies_satisfied [6] [] (some demoLoop) = true ↔
      ∀ d ∈ [6], d ∉ demoLoop.loopNodes → d ∈ ([] : List Nat)) ∧
    ((∀ d ∈ [6], d ∈ demoLoop.loopNodes) ∧
      are_dependencies_satisfied [6] [] (some demoLoop) = true) :=
  ⟨c6_loop_dependency_gate.1 [6] [] demoLoop,
   by decide, c6_loop_dependency_gate.2 [6] [] demoLoop (by decide)⟩

/-! ### C5 -/

/-- C5: `_check_loop_exit_condition` is true exactly when the loop's
iteration count has reached its bound or the (agent) node result's
upper-cased output contains one of the tokens STOP / COMPLETE / DONE —
bound first; and on completing the predecessor of a loop's entry node, the
dependent-processing step increments the loop counter and then either does
not re-enqueue the entry (exit, `loop_status: exiting`) or pushes the entry
at the queue front for another iteration (`loop_status: continuing`),
according to that very condition. -/
theorem c5_agent_loop_exit :
    (∀ (loop : LoopState) (res : NodeResult),
      (check_loop_exit_condition loop res = true ↔
        (loop.maxIterations ≤ loop.currentIteration ∨
          (res.rtype = ResultType.agent ∧
            (py_contains (py_upper res.output) "STOP" = true ∨
             py_contains (py_upper res.output) "COMPLETE" = true ∨
             py_contains (py_upper res.output) "DONE" = true))))) ∧
    (∀ (loop : LoopState) (res : NodeResult) (queue : List Nat) (loops : List LoopState),
      get_loop_by_id loops loop.loopId = some loop →
      loop.entryNode ∉ queue →
      process_dependents [loop.entryNode] (some loop) res queue loops =
        (if check_loop_exit_condition
            { loop with currentIteration := loop.currentIteration + 1 } res then
          { queue := queue, activeLoops := bump_loop_iteration loops loop.loopId,
            events := [WorkflowEvent.loopExiting loop.loopId (loop.currentIteration + 1)] }
        else
          { queue := loop.entryNode :: queue,
            activeLoops := bump_loop_iteration loops loop.loopId,
            events := [WorkflowEvent.loopContinuing loop.loopId
              (loop.currentIteration + 1)] })) := by
  constructor
  · intro loop res
    unfold check_loop_exit_condition has_stop_token
    by_cases hb : loop.maxIterations ≤ loop.currentIteration
    · simp [hb]
    · simp only [hb, ite_false, if_false]
      by_cases ht : res.rtype = ResultType.agent
      · simp [ht, Bool.or_eq_true, or_assoc]
      · simp [ht, hb]
  · intro loop res queue loops hloop hq
    unfold process_dependents
    rw [if_neg hq]
    dsimp only
    rw [if_pos rfl, get_loop_by_id_bump loops loop.loopId loop hloop]
    dsimp only [Option.getD]
    by_cases hx : check_loop_exit_condition
        { loop with currentIteration := loop.currentIteration + 1 } res
    · rw [if_pos hx, if_pos hx]
      rfl
    · rw [if_neg hx, if_neg hx]
      rfl

/-- C5 witness: a fresh self-entry loop, an agent result saying
"please stop"; the condition fires (case-insensitively) and the entry is
not re-enqueued. -/
theorem c5_agent_loop_exit_witness :
    (check_loop_exit_condition demoLoop { rtype := .agent, output := "please stop" } = true ↔
      (demoLoop.maxIterations ≤ demoLoop.currentIteration ∨
        ({ rtype := .agent, output := "please stop" } : NodeResult).rtype = ResultType.agent ∧
          (py_contains (py_upper ({ rtype := .agent, output := "please stop" } :
              NodeResult).output) "STOP" = true ∨
           py_contains (py_upper ({ rtype := .agent, output := "please stop" } :
              NodeResult).output) "COMPLETE" = true ∨
           py_contains (py_upper ({ rtype := .agent, output := "please stop" } :
              NodeResult).output) "DONE" = true))) ∧
    (get_loop_by_id [demoLoop] demoLoop.loopId = some demoLoop ∧
      demoLoop.entryNode ∉ ([] : List Nat) ∧
      process_dependents [demoLoop.entryNode] (some demoLoop)
          { rtype := .agent, output := "please stop" } [] [demoLoop] =
        (if check_loop_exit_condition
            { demoLoop with currentIteration := demoLoop.currentIteration + 1 }
            { rtype := .agent, output := "please stop" } then
          { queue := [], activeLoops := bump_loop_iteration [demoLoop] demoLoop.loopId,
            events := [WorkflowEvent.loopExiting demoLoop.loopId
              (demoLoop.currentIteration + 1)] }
        else
          { queue := demoLoop.entryNode :: [],
            activeLoops := bump_loop_iteration [demoLoop] demoLoop.loopId,
            events := [WorkflowEvent.loopContinuing demoLoop.loopId
              (demoLoop.currentIteration + 1)] })) :=
  ⟨c5_agent_loop_exit.1 demoLoop { rtype := .agent, output := "please stop" },
   by decide,
   by decide,
   c5_agent_loop_exit.2 demoLoop { rtype := .agent, output := "please stop" } [] [demoLoop]
     (by decide) (by decide)⟩

/-! ### C7 -/

/-- C7 (spec-modelled): for every non-empty node list in which every node
has at least one incoming edge (zero entry points), graph building fails
with `GraphError.noEntryPoints`, so the run never starts. -/
theorem c7_no_entry_points_graph_error (ns : List (Nat × NodeType)) (es : List Edge)
    (hne : ns ≠ [])
    (hok : ∀ e ∈ es, e.source ∈ ns.map Prod.fst ∧ e.target ∈ ns.map Prod.fst)
    (hin : ∀ p ∈ ns, ∃ e ∈ es, e.target = p.1) :
    build_graph ns es = .error GraphError.noEntryPoints := by
  unfold build_graph
  dsimp only
  have hfind : es.find? (fun e =>
      !((ns.map Prod.fst).contains e.source) || !((ns.map Prod.fst).contains e.target)) =
      none := by
    rw [List.find?_eq_none]
    intro e he
    obtain ⟨h1, h2⟩ := hok e he
    simp [List.elem_iff, h1, h2]
  rw [hfind]
  dsimp only
  rw [if_pos]
  constructor
  · exact hne
  · unfold find_entry_points
    rw [List.map_eq_nil_iff]
    rw [List.filter_eq_nil_iff]
    intro p hp
    rw [List.mem_map] at hp
    obtain ⟨q, hq, hpq⟩ := hp
    obtain ⟨e, he, het⟩ := hin q hq
    subst hpq
    dsimp only
    intro hempty
    rw [List.isEmpty_iff] at hempty
    have hmem : e ∈ List.filter (fun e => e.target == q.1) es := by
      rw [List.mem_filter]
      exact ⟨he, by simp [het]⟩
    rw [hempty] at hmem
    exact absurd hmem (List.not_mem_nil e)

/-- C7 witness: a two-node cycle has no entry points and fails to build. -/
theorem c7_no_entry_points_graph_error_witness :
    ([((0 : Nat), NodeType.agent), (1, NodeType.agent)] ≠ []) ∧
    build_graph [(0, NodeType.agent), (1, NodeType.agent)]
      [{ source := 0, target := 1 }, { source := 1, target := 0 }] =
      .error GraphError.noEntryPoints :=
  ⟨by decide,
   c7_no_entry_points_graph_error [(0, NodeType.agent), (1, NodeType.agent)]
     [{ source := 0, target := 1 }, { source := 1, target := 0 }]
     (by decide) (by decide) (by decide)⟩

/-! ### C2 -/

/-- C2: on the graph consisting of a single self-loop node, the entry-point
list is empty (so the composed pipeline would never run the node at all);
and seeding the scheduler queue with the node directly, the node executes
exactly once — not up to the per-loop bound of 10 — after which every pass
takes the `restart_loop` action without executing, the loop's iteration
counter stays at 1 so `_exit_loop` never runs, the node is never marked
completed, and the run ends by exhausting the global iteration bound of
100.  The claimed forced loop-exit (marking loop members completed and
enqueuing loop-exit successors) never happens. -/
theorem c2_selfloop_never_forced_exit :
    find_entry_points selfLoopGraph = [] ∧
    (execute_graph selfLoopGraph agentExecKeepGoing [0] {}).events =
      [WorkflowEvent.workflowProgress 0,
       WorkflowEvent.nodeRunning 0,
       WorkflowEvent.nodeCompleted 0,
       WorkflowEvent.loopContinuing 0 1,
       WorkflowEvent.workflowProgress 0,
       WorkflowEvent.workflowFailedBound 100] ∧
    (execute_graph selfLoopGraph agentExecKeepGoing [0] {}).completed = [] ∧
    (get_loop_by_id (execute_graph selfLoopGraph agentExecKeepGoing [0] {}).activeLoops 0).map
      (fun l => l.currentIteration) = some 1 := by
  refine ⟨by decide, ?_, by decide, by decide⟩
  decide

/-- `execute_node_step` never changes `iter` and `maxIter`, and only the
executor-failure branch sets `halted`. -/
theorem execute_node_step_fields (g : Graph) (execf : Nat → Except String NodeResult)
    (st : SchedState) (c : Nat) (cl : Option LoopState) :
    (execute_node_step g execf st c cl).maxIter = st.maxIter ∧
    (execute_node_step g execf st c cl).iter = st.iter := by
  unfold execute_node_step
  cases h : lookup_node g c with
  | none => exact ⟨rfl, rfl⟩
  | some info =>
    dsimp only
    cases hb : are_dependencies_satisfied info.dependencies st.completed cl
    · exact ⟨rfl, rfl⟩
    · cases he : execf c with
      | error e => exact ⟨rfl, rfl⟩
      | ok res => exact ⟨rfl, rfl⟩

/-- A halted state propagates unchanged through the scheduling loop. -/
theorem run_while_halted (g : Graph) (execf : Nat → Except String NodeResult)
    (fuel : Nat) (st : SchedState) (h : st.halted = true) :
    run_while g execf fuel st = st := by
  cases fuel with
  | zero => rfl
  | succ fuel => simp [run_while, h]

/-- The scheduling loop never changes the iteration bound. -/
theorem run_while_maxIter (g : Graph) (execf : Nat → Except String NodeResult) :
    ∀ (fuel : Nat) (st : SchedState), (run_while g execf fuel st).maxIter = st.maxIter := by
  intro fuel
  induction fuel with
  | zero => intro st; rfl
  | succ fuel ih =>
    intro st
    simp only [run_while]
    cases hh : st.halted
    · rw [if_neg Bool.false_ne_true]
      cases hq : st.queue with
      | nil => rfl
      | cons c rest =>
        dsimp only
        by_cases hi : st.maxIter ≤ st.iter
        · rw [if_pos hi]
        · rw [if_neg hi]
          cases hl : get_node_loop c st.activeLoops with
          | some cl =>
            dsimp only
            cases handle_loop_execution c cl
            · rw [ih]
              exact (execute_node_step_fields g execf _ c (some cl)).1
            · rw [ih]
            · dsimp only
              rw [ih]
            · rw [ih]
          | none =>
            dsimp only
            by_cases hc : c ∈ st.completed
            · rw [if_pos hc, ih]
            · rw [if_neg hc, ih]
              exact (execute_node_step_fields g execf _ c none).1
    · rw [if_pos rfl]

/-- `finalize_events` only appends a terminal event. -/
theorem finalize_events_fields (g : Graph) (st : SchedState) :
    (finalize_events g st).halted = st.halted ∧
    (finalize_events g st).iter = st.iter ∧
    (finalize_events g st).maxIter = st.maxIter ∧
    (finalize_events g st).completed = st.completed := by
  unfold finalize_events
  cases hh : st.halted
  · rw [if_neg Bool.false_ne_true]
    by_cases hb : st.maxIter ≤ st.iter
    · rw [if_pos hb]
      exact ⟨rfl, rfl, rfl, rfl⟩
    · rw [if_neg hb]
      by_cases hc : st.completed.length = g.length
      · rw [if_pos hc]
        exact ⟨rfl, rfl, rfl, rfl⟩
      · rw [if_neg hc]
        exact ⟨rfl, rfl, rfl, rfl⟩
  · rw [if_pos rfl]
    exact ⟨hh, rfl, rfl, rfl⟩

/-- With no current loop, dependent processing emits no events, leaves the
active loops unchanged, keeps every queued element, enqueues every
dependent, and adds nothing else. -/
theorem process_dependents_none (res : NodeResult) :
    ∀ (ds q : List Nat) (loops : List LoopState),
    (process_dependents ds none res q loops).activeLoops = loops ∧
    (process_dependents ds none res q loops).events = [] ∧
    (∀ m, (m ∈ q ∨ m ∈ ds) → m ∈ (process_dependents ds none res q loops).queue) ∧
    (∀ m ∈ (process_dependents ds none res q loops).queue, m ∈ q ∨ m ∈ ds) := by
  intro ds
  induction ds with
  | nil =>
    intro q loops
    refine ⟨rfl, rfl, ?_, ?_⟩
    · intro m hm
      rcases hm with hm | hm
      · exact hm
      · exact absurd hm (List.not_mem_nil m)
    · intro m hm
      exact Or.inl hm
  | cons dep rest ih =>
    intro q loops
    unfold process_dependents
    by_cases hd : dep ∈ q
    · rw [if_pos hd]
      obtain ⟨h1, h2, h3, h4⟩ := ih q loops
      refine ⟨h1, h2, ?_, ?_⟩
      · intro m hm
        rcases hm with hm | hm
        · exact h3 m (Or.inl hm)
        · rcases List.mem_cons.mp hm with hm | hm
          · exact h3 m (Or.inl (hm ▸ hd))
          · exact h3 m (Or.inr hm)
      · intro m hm
        rcases h4 m hm with hm | hm
        · exact Or.inl hm
        · exact Or.inr (List.mem_cons_of_mem dep hm)
    · rw [if_neg hd]
      dsimp only
      obtain ⟨h1, h2, h3, h4⟩ := ih (q ++ [dep]) loops
      refine ⟨h1, h2, ?_, ?_⟩
      · intro m hm
        rcases hm with hm | hm
        · exact h3 m (Or.inl (List.mem_append_left _ hm))
        · rcases List.mem_cons.mp hm with hm | hm
          · exact h3 m (Or.inl (List.mem_append_right _ (hm ▸ List.mem_singleton_self dep)))
          · exact h3 m (Or.inr hm)
      · intro m hm
        rcases h4 m hm with hm | hm
        · rcases List.mem_append.mp hm with hm | hm
          · exact Or.inl hm
          · exact Or.inr (List.mem_cons.mpr (Or.inl (List.mem_singleton.mp hm)))
        · exact Or.inr (List.mem_cons_of_mem dep hm)

/-- Dependent processing only ever emits `loop_status` events — never a
failure event. -/
theorem process_dependents_events (res : NodeResult) :
    ∀ (ds : List Nat) (cl : Option LoopState) (q : List Nat) (loops : List LoopState),
    ∀ ev ∈ (process_dependents ds cl res q loops).events,
      (∀ n err, ev ≠ WorkflowEvent.nodeFailed n err) ∧
      (∀ n err, ev ≠ WorkflowEvent.workflowFailedNode n err) := by
  intro ds
  induction ds with
  | nil =>
    intro cl q loops ev hev
    exact absurd hev (List.not_mem_nil ev)
  | cons dep rest ih =>
    intro cl q loops
    unfold process_dependents
    by_cases hd : dep ∈ q
    · rw [if_pos hd]
      exact ih cl q loops
    · rw [if_neg hd]
      cases cl with
      | none => exact ih none (q ++ [dep]) loops
      | some c =>
        dsimp only
        by_cases he : dep = c.entryNode
        · rw [if_pos he]
          by_cases hx : check_loop_exit_condition
              ((get_loop_by_id (bump_loop_iteration loops c.loopId) c.loopId).getD
                { c with currentIteration := c.currentIteration + 1 }) res
          · rw [if_pos hx]
            intro ev hev
            rcases List.mem_cons.mp hev with hev | hev
            · subst hev
              exact ⟨fun n err h => WorkflowEvent.noConfusion h,
                     fun n err h => WorkflowEvent.noConfusion h⟩
            · exact ih (some c) q (bump_loop_iteration loops c.loopId) ev hev
          · rw [if_neg hx]
            intro ev hev
            rcases List.mem_cons.mp hev with hev | hev
            · subst hev
              exact ⟨fun n err h => WorkflowEvent.noConfusion h,
                     fun n err h => WorkflowEvent.noConfusion h⟩
            · exact ih (some c) (dep :: q) (bump_loop_iteration loops c.loopId) ev hev
        · rw [if_neg he]
          exact ih (some c) (q ++ [dep]) loops

/-- One pass of the node-execution body: either no failure happened (and no
failure event was emitted), or the executor raised and the resulting state
is halted with the failure events at the very end of the trace. -/
theorem execute_node_step_failure (g : Graph) (execf : Nat → Except String NodeResult)
    (st : SchedState) (c : Nat) (cl : Option LoopState)
    (h0 : st.halted = false) (hn : no_failure_events st.events) :
    ((execute_node_step g execf st c cl).halted = false ∧
      no_failure_events (execute_node_step g execf st c cl).events) ∨
    ((execute_node_step g execf st c cl).halted = true ∧
      failure_shape execf (execute_node_step g execf st c cl).events) := by
  unfold execute_node_step
  cases hlu : lookup_node g c with
  | none => exact Or.inl ⟨h0, hn⟩
  | some info =>
    dsimp only
    cases hb : are_dependencies_satisfied info.dependencies st.completed cl
    · exact Or.inl ⟨h0, hn⟩
    · cases he : execf c with
      | error e =>
        refine Or.inr ⟨rfl, c, e, st.events, he, hn, ?_⟩
        dsimp only
        rw [List.append_assoc]
        rfl
      | ok res =>
        refine Or.inl ⟨h0, ?_⟩
        intro ev hev
        simp only [Bool.not_true, Bool.false_eq_true, if_false, List.mem_append,
          List.mem_singleton] at hev
        rcases hev with (((hev | hev) | hev) | hev) | hev
        · exact hn ev hev
        · subst hev
          exact ⟨fun n err h => WorkflowEvent.noConfusion h,
                 fun n err h => WorkflowEvent.noConfusion h⟩
        · subst hev
          exact ⟨fun n err h => WorkflowEvent.noConfusion h,
                 fun n err h => WorkflowEvent.noConfusion h⟩
        · exact process_dependents_events res info.dependents cl _ _ ev hev
        · subst hev
          exact ⟨fun n err h => WorkflowEvent.noConfusion h,
                 fun n err h => WorkflowEvent.noConfusion h⟩

/-- Through the whole scheduling loop: either no failure ever happened, or
the loop stopped immediately after the first failure with the failure
events last in the trace. -/
theorem run_while_failure (g : Graph) (execf : Nat → Except String NodeResult) :
    ∀ (fuel : Nat) (st : SchedState),
    st.halted = false → no_failure_events st.events →
    ((run_while g execf fuel st).halted = false ∧
      no_failure_events (run_while g execf fuel st).events) ∨
    ((run_while g execf fuel st).halted = true ∧
      failure_shape execf (run_while g execf fuel st).events) := by
  intro fuel
  induction fuel with
  | zero => intro st h0 hn; exact Or.inl ⟨h0, hn⟩
  | succ fuel ih =>
    intro st h0 hn
    simp only [run_while, h0]
    rw [if_neg Bool.false_ne_true]
    cases hq : st.queue with
    | nil => exact Or.inl ⟨h0, hn⟩
    | cons c rest =>
      dsimp only
      by_cases hi : st.maxIter ≤ st.iter
      · rw [if_pos hi]
        exact Or.inl ⟨h0, hn⟩
      · rw [if_neg hi]
        cases hl : get_node_loop c st.activeLoops with
        | some cl =>
          dsimp only
          cases handle_loop_execution c cl
          · rcases execute_node_step_failure g execf
                { queue := rest, completed := st.completed, nodeStatus := st.nodeStatus,
                  nodeOutputs := st.nodeOutputs, activeLoops := st.activeLoops,
                  iter := st.iter + 1, maxIter := st.maxIter, events := st.events,
                  halted := false } c (some cl) rfl hn with
              ⟨hh, hne⟩ | ⟨hh, hshape⟩
            · exact ih _ hh hne
            · rw [run_while_halted g execf fuel _ hh]
              exact Or.inr ⟨hh, hshape⟩
          · exact ih _ rfl hn
          · dsimp only
            exact ih _ rfl hn
          · exact ih _ rfl hn
        | none =>
          dsimp only
          by_cases hc : c ∈ st.completed
          · rw [if_pos hc]
            exact ih _ rfl hn
          · rw [if_neg hc]
            rcases execute_node_step_failure g execf
                { queue := rest, completed := st.completed, nodeStatus := st.nodeStatus,
                  nodeOutputs := st.nodeOutputs, activeLoops := st.activeLoops,
                  iter := st.iter + 1, maxIter := st.maxIter, events := st.events,
                  halted := false } c none rfl hn with
              ⟨hh, hne⟩ | ⟨hh, hshape⟩
            · exact ih _ hh hne
            · rw [run_while_halted g execf fuel _ hh]
              exact Or.inr ⟨hh, hshape⟩

/-! ### C3 -/

/-- C3: whenever a run halts early (the only way `_execute_graph` returns
from inside its loop), some node's executor raised, the trace ends with
`node_status: running`, `node_status: failed` for that node immediately
followed by the terminal `workflow_status: failed` — with nothing after
them, so no further node executes — and no failure event occurs anywhere
earlier, so the node was not retried and this is the first and only
failure. -/
theorem c3_executor_failure_fatal (g : Graph) (execf : Nat → Except String NodeResult)
    (entry_points : List Nat) (ctx : WorkflowContext)
    (hH : (execute_graph g execf entry_points ctx).halted = true) :
    failure_shape execf (execute_graph g execf entry_points ctx).events := by
  unfold execute_graph at hH ⊢
  dsimp only at hH ⊢
  have hinit : no_failure_events [WorkflowEvent.workflowProgress 0] := by
    intro ev hev
    rw [List.mem_singleton] at hev
    subst hev
    exact ⟨fun n err h => WorkflowEvent.noConfusion h,
           fun n err h => WorkflowEvent.noConfusion h⟩
  rcases run_while_failure g execf (ctx.maxIterations - ctx.currentIteration + 1)
      { queue := entry_points, completed := [],
        nodeStatus := g.map (fun p => (p.1, NodeStatus.pending)),
        nodeOutputs := [], activeLoops := ctx.activeLoops ++ detect_loops g,
        iter := ctx.currentIteration, maxIter := ctx.maxIterations,
        events := [WorkflowEvent.workflowProgress 0], halted := false }
      rfl hinit with ⟨hh, _⟩ | ⟨hh, hshape⟩
  · rw [(finalize_events_fields g _).1] at hH
    rw [hH] at hh
    exact absurd hh (by simp)
  · have hfe : finalize_events g (run_while g execf
        (ctx.maxIterations - ctx.currentIteration + 1)
        { queue := entry_points, completed := [],
          nodeStatus := g.map (fun p => (p.1, NodeStatus.pending)),
          nodeOutputs := [], activeLoops := ctx.activeLoops ++ detect_loops g,
          iter := ctx.currentIteration, maxIter := ctx.maxIterations,
          events := [WorkflowEvent.workflowProgress 0], halted := false }) =
        run_while g execf (ctx.maxIterations - ctx.currentIteration + 1)
        { queue := entry_points, completed := [],
          nodeStatus := g.map (fun p => (p.1, NodeStatus.pending)),
          nodeOutputs := [], activeLoops := ctx.activeLoops ++ detect_loops g,
          iter := ctx.currentIteration, maxIter := ctx.maxIterations,
          events := [WorkflowEvent.workflowProgress 0], halted := false } := by
      unfold finalize_events
      rw [if_pos hh]
    rw [hfe]
    exact hshape

/-- C3 witness: a single entry node whose executor raises; the run halts
with the failure trace. -/
theorem c3_executor_failure_fatal_witness :
    (execute_graph singleNodeGraph execBoom [0] {}).halted = true ∧
    failure_shape execBoom (execute_graph singleNodeGraph execBoom [0] {}).events :=
  ⟨by decide, c3_executor_failure_fatal singleNodeGraph execBoom [0] {} (by decide)⟩

/-! ### C4 -/

/-- C4 counterexample: with a global bound of 1 and an executor that raises
on the single node, the counter reaches the bound before every node
completes, yet the run's last event is the node-failure
`workflow_status: failed` — no bound-exceeded message is ever emitted,
because the generator returns before the post-loop bound check. -/
theorem c4_counterexample :
    (execute_graph singleNodeGraph execBoom [0] { maxIterations := 1 }).maxIter ≤
      (execute_graph singleNodeGraph execBoom [0] { maxIterations := 1 }).iter ∧
    (execute_graph singleNodeGraph execBoom [0] { maxIterations := 1 }).completed.length ≠
      singleNodeGraph.length ∧
    WorkflowEvent.workflowFailedBound 1 ∉
      (execute_graph singleNodeGraph execBoom [0] { maxIterations := 1 }).events ∧
    (execute_graph singleNodeGraph execBoom [0] { maxIterations := 1 }).events.getLast? =
      some (WorkflowEvent.workflowFailedNode 0 "boom") := by
  refine ⟨by decide, by decide, by decide, by decide⟩

/-- C4 (amended): when the run was not already terminated by a node
failure and the global iteration counter reached its bound, the run ends
with a `workflow_status: failed` event citing the maximum-iterations
bound. -/
theorem c4_bound_exhaustion_fails_run (g : Graph)
    (execf : Nat → Except String NodeResult) (entry_points : List Nat)
    (ctx : WorkflowContext)
    (hNoFail : (execute_graph g execf entry_points ctx).halted = false)
    (hBound : ctx.maxIterations ≤ (execute_graph g execf entry_points ctx).iter)
    (hIncomplete : (execute_graph g execf entry_points ctx).completed.length ≠ g.length) :
    (execute_graph g execf entry_points ctx).events.getLast? =
      some (WorkflowEvent.workflowFailedBound ctx.maxIterations) := by
  unfold execute_graph at hNoFail hBound hIncomplete ⊢
  dsimp only at hNoFail hBound hIncomplete ⊢
  rw [(finalize_events_fields g _).1] at hNoFail
  rw [(finalize_events_fields g _).2.1] at hBound
  have hmax : (run_while g execf (ctx.maxIterations - ctx.currentIteration + 1)
      { queue := entry_points, completed := [],
        nodeStatus := g.map (fun p => (p.1, NodeStatus.pending)),
        nodeOutputs := [], activeLoops := ctx.activeLoops ++ detect_loops g,
        iter := ctx.currentIteration, maxIter := ctx.maxIterations,
        events := [WorkflowEvent.workflowProgress 0], halted := false }).maxIter =
      ctx.maxIterations := run_while_maxIter g execf _ _
  unfold finalize_events
  rw [if_neg (by rw [hNoFail]; exact Bool.false_ne_true)]
  rw [if_pos (by rw [hmax]; exact hBound)]
  dsimp only
  rw [hmax]
  exact List.getLast?_concat _

/-- C4 witness: two isolated nodes with a global bound of 1; the first
executes, the bound is hit, and the run fails citing it. -/
theorem c4_bound_exhaustion_fails_run_witness :
    (execute_graph twoIsolated agentExecOk [0, 1] { maxIterations := 1 }).halted = false ∧
    (1 ≤ (execute_graph twoIsolated agentExecOk [0, 1] { maxIterations := 1 }).iter) ∧
    (execute_graph twoIsolated agentExecOk [0, 1] { maxIterations := 1 }).completed.length ≠
      twoIsolated.length ∧
    (execute_graph twoIsolated agentExecOk [0, 1] { maxIterations := 1 }).events.getLast? =
      some (WorkflowEvent.workflowFailedBound 1) :=
  ⟨by decide, by decide, by decide,
   c4_bound_exhaustion_fails_run twoIsolated agentExecOk [0, 1] { maxIterations := 1 }
     (by decide) (by decide) (by decide)⟩

/-! ### Graph lemmas for the acyclic-scheduler theorem -/

/-- A successful lookup returns an entry of the graph list. -/
theorem lookup_node_mem (g : Graph) (n : Nat) (info : NodeInfo)
    (h : lookup_node g n = some info) : (n, info) ∈ g := by
  unfold lookup_node at h
  cases hf : g.find? (fun p => p.1 == n) with
  | none => rw [hf] at h; exact absurd h (by simp)
  | some p =>
    rw [hf] at h
    injection h with h
    have hp := List.find?_some hf
    have hm := List.mem_of_find?_eq_some hf
    rw [beq_iff_eq] at hp
    subst h
    rw [← hp]
    exact hm

/-- Every key of the graph has a lookup result. -/
theorem lookup_node_of_mem_keys (g : Graph) (n : Nat) (h : n ∈ graph_keys g) :
    ∃ info, lookup_node g n = some info := by
  unfold graph_keys at h
  rw [List.mem_map] at h
  obtain ⟨p, hp, hpn⟩ := h
  unfold lookup_node
  cases hf : g.find? (fun q => q.1 == n) with
  | none =>
    rw [List.find?_eq_none] at hf
    have hcon := hf p hp
    rw [hpn] at hcon
    simp at hcon
  | some q => exact ⟨q.2, rfl⟩

/-- Membership in `edge_pairs` from an outgoing edge. -/
theorem edge_pairs_of_outgoing (g : Graph) (p : Nat × NodeInfo) (e : Edge)
    (hp : p ∈ g) (he : e ∈ p.2.outgoing) : (e.source, e.target) ∈ edge_pairs g := by
  unfold edge_pairs
  induction g with
  | nil => exact absurd hp (List.not_mem_nil p)
  | cons q tl ih =>
    rw [List.foldr_cons, List.mem_append]
    rcases List.mem_cons.mp hp with hp | hp
    · subst hp
      exact Or.inl (List.mem_map.mpr ⟨e, he, rfl⟩)
    · exact Or.inr (ih hp)

/-- Decomposition of membership in `edge_pairs`. -/
theorem edge_pairs_elim (g : Graph) (u v : Nat) (h : (u, v) ∈ edge_pairs g) :
    ∃ p ∈ g, ∃ e ∈ p.2.outgoing, e.source = u ∧ e.target = v := by
  unfold edge_pairs at h
  induction g with
  | nil => exact absurd h (List.not_mem_nil _)
  | cons q tl ih =>
    rw [List.foldr_cons, List.mem_append] at h
    rcases h with h | h
    · rw [List.mem_map] at h
      obtain ⟨e, he, hev⟩ := h
      refine ⟨q, List.mem_cons_self q tl, e, he, ?_, ?_⟩
      · exact congrArg Prod.fst hev
      · exact congrArg Prod.snd hev
    · obtain ⟨p, hp, e, he, h1, h2⟩ := ih h
      exact ⟨p, List.mem_cons_of_mem q hp, e, he, h1, h2⟩

/-- In a well-formed graph both endpoints of an edge are keys. -/
theorem edgeRel_mem_keys (g : Graph) (hwf : WellFormed g) (u v : Nat)
    (h : EdgeRel g u v) : u ∈ graph_keys g ∧ v ∈ graph_keys g := by
  obtain ⟨p, hp, e, he, h1, h2⟩ := edge_pairs_elim g u v h
  obtain ⟨hsrc, htgt⟩ := hwf.2.2.1 p hp e he
  constructor
  · rw [← h1, hsrc]
    exact List.mem_map.mpr ⟨p, hp, rfl⟩
  · rw [← h2]
    exact htgt

/-- Distinct keys determine their node info uniquely. -/
theorem nodup_keys_unique (g : Graph) (hnd : (graph_keys g).Nodup) :
    ∀ {a : Nat} {x y : NodeInfo}, (a, x) ∈ g → (a, y) ∈ g → x = y := by
  induction g with
  | nil =>
    intro a x y h
    exact absurd h (List.not_mem_nil _)
  | cons q tl ih =>
    intro a x y hx hy
    unfold graph_keys at hnd
    rw [List.map_cons, List.nodup_cons] at hnd
    rcases List.mem_cons.mp hx with hx | hx <;> rcases List.mem_cons.mp hy with hy | hy
    · rw [← hx] at hy
      injection hy with _ h
      exact h.symm
    · exfalso
      apply hnd.1
      rw [← hx]
      exact List.mem_map.mpr ⟨(a, y), hy, rfl⟩
    · exfalso
      apply hnd.1
      rw [← hy]
      exact List.mem_map.mpr ⟨(a, x), hx, rfl⟩
    · exact ih hnd.2 hx hy

/-- In a well-formed graph, `u` is a dependency of `v` exactly when there
is an edge `u → v`. -/
theorem edgeRel_iff_dependency (g : Graph) (hwf : WellFormed g) (u v : Nat)
    (info : NodeInfo) (hl : lookup_node g v = some info) :
    EdgeRel g u v ↔ u ∈ info.dependencies := by
  have hmem := lookup_node_mem g v info hl
  constructor
  · intro h
    obtain ⟨p, hp, e, he, h1, h2⟩ := edge_pairs_elim g u v h
    obtain ⟨q, hq, hq1, hq2⟩ := hwf.2.2.2.2.2.2.2.1 p hp e he
    have hq1v : q.1 = v := by rw [hq1, h2]
    have hqv : q = (v, q.2) := by rw [← hq1v]
    rw [hqv] at hq
    have heq : q.2 = info := nodup_keys_unique g hwf.1 hq hmem
    rw [heq] at hq2
    have := hwf.2.2.2.2.1 (v, info) hmem e hq2
    rw [h1] at this
    exact this
  · intro h
    obtain ⟨e, he, hes⟩ := hwf.2.2.2.1 (v, info) hmem u h
    obtain ⟨q, hq, hq1, hq2⟩ := hwf.2.2.2.2.2.2.2.2 (v, info) hmem e he
    have hpair := edge_pairs_of_outgoing g q e hq hq2
    have htgt : e.target = v := (hwf.2.1 (v, info) hmem e he).1
    rw [hes, htgt] at hpair
    exact hpair

/-- In a well-formed graph, `v` is a dependent of `u` exactly when there is
an edge `u → v`. -/
theorem edgeRel_iff_dependent (g : Graph) (hwf : WellFormed g) (u v : Nat)
    (info : NodeInfo) (hl : lookup_node g u = some info) :
    EdgeRel g u v ↔ v ∈ info.dependents := by
  have hmem := lookup_node_mem g u info hl
  constructor
  · intro h
    obtain ⟨p, hp, e, he, h1, h2⟩ := edge_pairs_elim g u v h
    have hsrc : e.source = p.1 := (hwf.2.2.1 p hp e he).1
    have hp1u : p.1 = u := by rw [← hsrc, h1]
    have hpu : p = (u, p.2) := by rw [← hp1u]
    rw [hpu] at hp
    have heq : p.2 = info := nodup_keys_unique g hwf.1 hp hmem
    rw [heq] at he
    have := hwf.2.2.2.2.2.2.1 (u, info) hmem e he
    rw [h2] at this
    exact this
  · intro h
    obtain ⟨e, he, het⟩ := hwf.2.2.2.2.2.1 (u, info) hmem v h
    have hpair := edge_pairs_of_outgoing g (u, info) e hmem he
    have hsrc : e.source = u := (hwf.2.2.1 (u, info) hmem e he).1
    rw [hsrc, het] at hpair
    exact hpair

/-- Folding the DFS over children preserves loops and recursion stack when
the graph is acyclic (every stack entry reaches the current node). -/
theorem dfs_fold_acyclic (g : Graph) (hwf : WellFormed g) (hacyc : Acyclic g)
    (fuel nodeId : Nat) (info : NodeInfo) (hmem : (nodeId, info) ∈ g)
    (IH : ∀ (n2 : Nat) (path : List Nat) (s : DetectState),
      (∀ r ∈ s.recStack, Relation.TransGen (EdgeRel g) r n2) →
      (dfs_detect g fuel n2 path s).loops = s.loops ∧
      (dfs_detect g fuel n2 path s).recStack = s.recStack) :
    ∀ (es : List Edge), (∀ e ∈ es, e ∈ info.outgoing) →
    ∀ (path : List Nat) (s1 : DetectState),
    (∀ r ∈ s1.recStack, Relation.ReflTransGen (EdgeRel g) r nodeId) →
    ((es.foldl (fun acc e => dfs_detect g fuel e.target (path ++ [e.target]) acc) s1).loops
        = s1.loops ∧
     (es.foldl (fun acc e => dfs_detect g fuel e.target (path ++ [e.target]) acc)
        s1).recStack = s1.recStack) := by
  intro es
  induction es with
  | nil =>
    intro _ path s1 _
    exact ⟨rfl, rfl⟩
  | cons e tl ihe =>
    intro hsub path s1 hstack
    rw [List.foldl_cons]
    have he := hsub e (List.mem_cons_self e tl)
    have hedge : EdgeRel g nodeId e.target := by
      have hpair := edge_pairs_of_outgoing g (nodeId, info) e hmem he
      have hsrc : e.source = nodeId := (hwf.2.2.1 (nodeId, info) hmem e he).1
      rw [hsrc] at hpair
      exact hpair
    obtain ⟨hl1, hr1⟩ := IH e.target (path ++ [e.target]) s1
      (fun r hr => Relation.TransGen.tail' (hstack r hr) hedge)
    have hnext := ihe (fun e2 he2 => hsub e2 (List.mem_cons_of_mem e he2)) path
      (dfs_detect g fuel e.target (path ++ [e.target]) s1)
      (by rw [hr1]; exact hstack)
    rw [hnext.1, hnext.2, hl1, hr1]
    exact ⟨rfl, rfl⟩

/-- On an acyclic well-formed graph the DFS of `_detect_loops` never hits
its recursion stack: it records no loop and restores the stack. -/
theorem dfs_detect_acyclic (g : Graph) (hwf : WellFormed g) (hacyc : Acyclic g) :
    ∀ (fuel nodeId : Nat) (path : List Nat) (s : DetectState),
    (∀ r ∈ s.recStack, Relation.TransGen (EdgeRel g) r nodeId) →
    (dfs_detect g fuel nodeId path s).loops = s.loops ∧
    (dfs_detect g fuel nodeId path s).recStack = s.recStack := by
  intro fuel
  induction fuel with
  | zero =>
    intro nodeId path s hinv
    exact ⟨rfl, rfl⟩
  | succ fuel ih =>
    intro nodeId path s hinv
    unfold dfs_detect
    by_cases hrs : nodeId ∈ s.recStack
    · exact absurd (hinv nodeId hrs) (hacyc nodeId)
    · rw [if_neg hrs]
      by_cases hv : nodeId ∈ s.visited
      · rw [if_pos hv]
        exact ⟨rfl, rfl⟩
      · rw [if_neg hv]
        dsimp only
        have herase : ∀ l : List Nat, nodeId ∉ l → (l ++ [nodeId]).erase nodeId = l := by
          intro l hl
          rw [List.erase_append_right _ hl, List.erase_cons_head, List.append_nil]
        cases hlo : lookup_node g nodeId with
        | none =>
          have houtnil : outgoing_of g nodeId = [] := by
            unfold outgoing_of
            rw [hlo]
          rw [houtnil, List.foldl_nil]
          exact ⟨rfl, herase s.recStack hrs⟩
        | some info =>
          have hout : outgoing_of g nodeId = info.outgoing := by
            unfold outgoing_of
            rw [hlo]
          have hmem := lookup_node_mem g nodeId info hlo
          rw [hout]
          have hstack1 : ∀ r ∈ s.recStack ++ [nodeId],
              Relation.ReflTransGen (EdgeRel g) r nodeId := by
            intro r hr
            rcases List.mem_append.mp hr with hr | hr
            · exact (hinv r hr).to_reflTransGen
            · rw [List.mem_singleton] at hr
              subst hr
              exact Relation.ReflTransGen.refl
          obtain ⟨hfl, hfr⟩ := dfs_fold_acyclic g hwf hacyc fuel nodeId info hmem ih
            info.outgoing (fun e he => he) path
            { s with visited := s.visited ++ [nodeId], recStack := s.recStack ++ [nodeId] }
            hstack1
          constructor
          · rw [hfl]
          · rw [hfr]
            exact herase s.recStack hrs

/-- `_detect_loops` finds no loop on an acyclic well-formed graph. -/
theorem detect_loops_acyclic (g : Graph) (hwf : WellFormed g) (hacyc : Acyclic g) :
    detect_loops g = [] := by
  unfold detect_loops
  suffices h : ∀ (l : List (Nat × NodeInfo)) (acc : DetectState),
      acc.loops = [] → acc.recStack = [] →
      ((l.foldl (fun s p => if p.1 ∈ s.visited then s
          else dfs_detect g (g.length + 1) p.1 [p.1] s) acc).loops = [] ∧
       (l.foldl (fun s p => if p.1 ∈ s.visited then s
          else dfs_detect g (g.length + 1) p.1 [p.1] s) acc).recStack = []) by
    exact (h g { loops := [], visited := [], recStack := [] } rfl rfl).1
  intro l
  induction l with
  | nil =>
    intro acc h1 h2
    exact ⟨h1, h2⟩
  | cons p tl ihl =>
    intro acc h1 h2
    rw [List.foldl_cons]
    by_cases hv : p.1 ∈ acc.visited
    · rw [if_pos hv]
      exact ihl acc h1 h2
    · rw [if_neg hv]
      have hd := dfs_detect_acyclic g hwf hacyc (g.length + 1) p.1 [p.1] acc
        (by rw [h2]; intro r hr; exact absurd hr (List.not_mem_nil r))
      refine ihl _ ?_ ?_
      · rw [hd.1, h1]
      · rw [hd.2, h2]

/-- Without a loop, the dependency gate is plain set inclusion. -/
theorem are_deps_none_iff (deps completed : List Nat) :
    are_dependencies_satisfied deps completed none = true ↔ ∀ d ∈ deps, d ∈ completed := by
  unfold are_dependencies_satisfied
  simp [List.all_eq_true, List.elem_iff]

/-- Executing a pending node with satisfied or unsatisfied dependencies
preserves the scheduler invariant (acyclic case: the loop argument is
`none`). -/
theorem exec_branch_inv (g : Graph) (execf : Nat → Except String NodeResult)
    (hwf : WellFormed g) (hexec : ∀ n, ∃ r, execf n = Except.ok r)
    (st : SchedState) (c : Nat) (rest : List Nat)
    (hq : st.queue = c :: rest) (hinv : SInv g st) (hc : c ∉ st.completed) :
    SInv g (execute_node_step g execf
      { queue := rest, completed := st.completed, nodeStatus := st.nodeStatus,
        nodeOutputs := st.nodeOutputs, activeLoops := st.activeLoops,
        iter := st.iter + 1, maxIter := st.maxIter, events := st.events,
        halted := false } c none) := by
  obtain ⟨hA, hH, hND, hCK, hQK, hBlock, hCnt, hRun, hTopo⟩ := hinv
  have hcK : c ∈ graph_keys g := hQK c (by rw [hq]; exact List.mem_cons_self c rest)
  obtain ⟨info, hlo⟩ := lookup_node_of_mem_keys g c hcK
  have hcg : (c, info) ∈ g := lookup_node_mem g c info hlo
  unfold execute_node_step
  rw [hlo]
  dsimp only
  cases hb : are_dependencies_satisfied info.dependencies st.completed none
  · -- dependency gate unmet: tail re-enqueue
    refine ⟨hA, rfl, hND, hCK, ?_, ?_, hCnt, hRun, hTopo⟩
    · intro m hm
      rcases List.mem_append.mp hm with hm | hm
      · exact hQK m (by rw [hq]; exact List.mem_cons_of_mem c hm)
      · rw [List.mem_singleton] at hm
        subst hm
        exact hcK
    · intro n hnK hnC
      rcases hBlock n hnK hnC with hn | hn
      · rw [hq] at hn
        rcases List.mem_cons.mp hn with hn | hn
        · subst hn
          exact Or.inl (List.mem_append_right rest (List.mem_singleton_self n))
        · exact Or.inl (List.mem_append_left [c] hn)
      · exact Or.inr hn
  · -- dependencies satisfied: execute
    obtain ⟨res, hres⟩ := hexec c
    rw [hres]
    simp only [Bool.not_true, Bool.false_eq_true, if_false, Option.isNone_none,
      eq_self_iff_true, if_true]
    obtain ⟨hpdA, hpdE, hpdIn, hpdOut⟩ :=
      process_dependents_none res info.dependents rest st.activeLoops
    have hdeps : ∀ d ∈ info.dependencies, d ∈ st.completed :=
      (are_deps_none_iff info.dependencies st.completed).mp hb
    have hdepK : ∀ m ∈ info.dependents, m ∈ graph_keys g := by
      intro m hm
      obtain ⟨e, he, het⟩ := hwf.2.2.2.2.2.1 (c, info) hcg m hm
      have := (hwf.2.2.1 (c, info) hcg e he).2
      rw [het] at this
      exact this
    refine ⟨by rw [hpdA]; exact hA, rfl, ?_, ?_, ?_, ?_, ?_, ?_, ?_⟩
    · exact List.Nodup.append hND (List.nodup_singleton c)
        ((List.disjoint_singleton).mpr hc)
    · intro n hn
      rcases List.mem_append.mp hn with hn | hn
      · exact hCK n hn
      · rw [List.mem_singleton] at hn
        subst hn
        exact hcK
    · intro m hm
      rcases hpdOut m hm with hm | hm
      · exact hQK m (by rw [hq]; exact List.mem_cons_of_mem c hm)
      · exact hdepK m hm
    · intro n hnK hnC
      have hnc : n ≠ c := by
        intro h
        subst h
        exact hnC (List.mem_append_right _ (List.mem_singleton_self n))
      have hnC0 : n ∉ st.completed := fun h => hnC (List.mem_append_left _ h)
      rcases hBlock n hnK hnC0 with hn | hn
      · rw [hq] at hn
        rcases List.mem_cons.mp hn with hn | hn
        · exact absurd hn hnc
        · exact Or.inl (hpdIn n (Or.inl hn))
      · obtain ⟨d, hdrel, hdnc⟩ := hn
        by_cases hdc : d = c
        · subst hdc
          have : n ∈ info.dependents :=
            (edgeRel_iff_dependent g hwf d n info hlo).mp hdrel
          exact Or.inl (hpdIn n (Or.inr this))
        · refine Or.inr ⟨d, hdrel, ?_⟩
          intro h
          rcases List.mem_append.mp h with h | h
          · exact hdnc h
          · rw [List.mem_singleton] at h
            exact hdc h
    · intro n
      rw [hpdE, List.append_nil]
      rw [List.count_append, List.count_append, List.count_append, hCnt n]
      by_cases hnc : n = c
      · subst hnc
        rw [if_neg hc, if_pos (List.mem_append_right _ (List.mem_singleton_self n))]
        simp
      · have : n ∈ st.completed ++ [c] ↔ n ∈ st.completed := by
          rw [List.mem_append, List.mem_singleton]
          exact or_iff_left hnc
        rw [if_congr this rfl rfl]
        have h1 : List.count (WorkflowEvent.nodeCompleted n)
            [WorkflowEvent.nodeRunning c] = 0 := by simp
        have h2 : List.count (WorkflowEvent.nodeCompleted n)
            [WorkflowEvent.nodeCompleted c] = 0 := by
          simp [List.count_singleton]
          intro h
          exact absurd h.symm hnc
        have h3 : List.count (WorkflowEvent.nodeCompleted n)
            [WorkflowEvent.workflowProgress (st.completed ++ [c]).length] = 0 := by simp
        omega
    · intro n
      rw [hpdE, List.append_nil]
      rw [List.count_append, List.count_append, List.count_append, hRun n]
      by_cases hnc : n = c
      · subst hnc
        rw [if_neg hc, if_pos (List.mem_append_right _ (List.mem_singleton_self n))]
        simp
      · have : n ∈ st.completed ++ [c] ↔ n ∈ st.completed := by
          rw [List.mem_append, List.mem_singleton]
          exact or_iff_left hnc
        rw [if_congr this rfl rfl]
        have h1 : List.count (WorkflowEvent.nodeRunning n)
            [WorkflowEvent.nodeRunning c] = 0 := by
          simp [List.count_singleton]
          intro h
          exact absurd h.symm hnc
        have h2 : List.count (WorkflowEvent.nodeRunning n)
            [WorkflowEvent.nodeCompleted c] = 0 := by simp
        have h3 : List.count (WorkflowEvent.nodeRunning n)
            [WorkflowEvent.workflowProgress (st.completed ++ [c]).length] = 0 := by simp
        omega
    · intro i v hi u hrel
      rw [hpdE, List.append_nil] at hi
      rw [List.append_assoc, List.append_assoc] at hi
      have hsplit := hi
      by_cases hlen : i < st.events.length
      · rw [List.getElem?_append_left hlen] at hsplit
        obtain ⟨j, hj, hjev⟩ := hTopo i v hsplit u hrel
        refine ⟨j, hj, ?_⟩
        rw [hpdE, List.append_nil, List.append_assoc, List.append_assoc]
        have hjlen : j < st.events.length := by
          rcases List.getElem?_eq_some.mp hjev with ⟨h, _⟩
          exact h
        rw [List.getElem?_append_left hjlen]
        exact hjev
      · rw [List.getElem?_append_right (Nat.le_of_not_lt hlen)] at hsplit
        have hvc : v = c := by
          rcases hk : i - st.events.length with _ | k
          · rw [hk] at hsplit
            exact absurd hsplit (by simp)
          · rcases k with _ | k
            · rw [hk] at hsplit
              injection hsplit with h
              injection h with h
              exact h.symm
            · rcases k with _ | k
              · rw [hk] at hsplit
                exact absurd hsplit (by simp)
              · rw [hk] at hsplit
                exact absurd hsplit (by simp)
        subst hvc
        have hu : u ∈ st.completed := hdeps u
          ((edgeRel_iff_dependency g hwf u v info hlo).mp hrel)
        have hucnt := hCnt u
        rw [if_pos hu] at hucnt
        have humem : WorkflowEvent.nodeCompleted u ∈ st.events := by
          rw [← List.count_pos_iff]
          omega
        obtain ⟨j, hjev⟩ := List.mem_iff_getElem?.mp humem
        have hjlen : j < st.events.length := by
          rcases List.getElem?_eq_some.mp hjev with ⟨h, _⟩
          exact h
        refine ⟨j, by omega, ?_⟩
        rw [hpdE, List.append_nil, List.append_assoc, List.append_assoc]
        rw [List.getElem?_append_left hjlen]
        exact hjev

/-- Dropping an already-completed queue head preserves the invariant. -/
theorem skip_branch_inv (g : Graph) (st : SchedState) (c : Nat) (rest : List Nat)
    (hq : st.queue = c :: rest) (hinv : SInv g st) (hc : c ∈ st.completed) :
    SInv g { queue := rest, completed := st.completed, nodeStatus := st.nodeStatus,
             nodeOutputs := st.nodeOutputs, activeLoops := st.activeLoops,
             iter := st.iter + 1, maxIter := st.maxIter, events := st.events,
             halted := false } := by
  obtain ⟨hA, hH, hND, hCK, hQK, hBlock, hCnt, hRun, hTopo⟩ := hinv
  refine ⟨hA, rfl, hND, hCK, ?_, ?_, hCnt, hRun, hTopo⟩
  · intro m hm
    exact hQK m (by rw [hq]; exact List.mem_cons_of_mem c hm)
  · intro n hnK hnC
    rcases hBlock n hnK hnC with hn | hn
    · rw [hq] at hn
      rcases List.mem_cons.mp hn with hn | hn
      · subst hn
        exact absurd hc hnC
      · exact Or.inl hn
    · exact Or.inr hn

/-- The scheduler invariant is preserved through the whole loop, and with
sufficient fuel the loop only stops on an empty queue or by exhausting the
global bound. -/
theorem run_while_inv (g : Graph) (execf : Nat → Except String NodeResult)
    (hwf : WellFormed g) (hexec : ∀ n, ∃ r, execf n = Except.ok r) :
    ∀ (fuel : Nat) (st : SchedState),
    st.maxIter - st.iter < fuel → SInv g st →
    (SInv g (run_while g execf fuel st) ∧
      ((run_while g execf fuel st).queue = [] ∨
        (run_while g execf fuel st).maxIter ≤ (run_while g execf fuel st).iter)) := by
  intro fuel
  induction fuel with
  | zero =>
    intro st hfuel hinv
    omega
  | succ fuel ih =>
    intro st hfuel hinv
    have hH := hinv.2.1
    simp only [run_while, hH]
    rw [if_neg Bool.false_ne_true]
    cases hq : st.queue with
    | nil =>
      exact ⟨hinv, Or.inl hq⟩
    | cons c rest =>
      dsimp only
      by_cases hi : st.maxIter ≤ st.iter
      · rw [if_pos hi]
        exact ⟨hinv, Or.inr hi⟩
      · rw [if_neg hi]
        have hgl : get_node_loop c st.activeLoops = none := by
          rw [hinv.1]
          rfl
        rw [hgl]
        dsimp only
        by_cases hc : c ∈ st.completed
        · rw [if_pos hc]
          exact ih _ (by dsimp only; omega) (skip_branch_inv g st c rest hq hinv hc)
        · rw [if_neg hc]
          have hstep := exec_branch_inv g execf hwf hexec st c rest hq hinv hc
          have hfields := execute_node_step_fields g execf
            { queue := rest, completed := st.completed, nodeStatus := st.nodeStatus,
              nodeOutputs := st.nodeOutputs, activeLoops := st.activeLoops,
              iter := st.iter + 1, maxIter := st.maxIter, events := st.events,
              halted := false } c none
          exact ih _ (by rw [hfields.1, hfields.2]; dsimp only; omega) hstep

/-- The initial scheduler state of an acyclic run satisfies the invariant. -/
theorem initial_SInv (g : Graph) (hwf : WellFormed g) (hacyc : Acyclic g)
    (ctx : WorkflowContext) (hloops : ctx.activeLoops = []) :
    SInv g { queue := find_entry_points g, completed := [],
             nodeStatus := g.map (fun p => (p.1, NodeStatus.pending)),
             nodeOutputs := [], activeLoops := ctx.activeLoops ++ detect_loops g,
             iter := ctx.currentIteration, maxIter := ctx.maxIterations,
             events := [WorkflowEvent.workflowProgress 0], halted := false } := by
  refine ⟨?_, rfl, List.nodup_nil, ?_, ?_, ?_, ?_, ?_, ?_⟩
  · rw [hloops, detect_loops_acyclic g hwf hacyc]
    rfl
  · intro n hn
    exact absurd hn (List.not_mem_nil n)
  · intro n hn
    unfold find_entry_points at hn
    rw [List.mem_map] at hn
    obtain ⟨p, hp, hpn⟩ := hn
    rw [List.mem_filter] at hp
    exact hpn ▸ List.mem_map.mpr ⟨p, hp.1, rfl⟩
  · intro n hnK hn0
    obtain ⟨info, hlo⟩ := lookup_node_of_mem_keys g n hnK
    have hng := lookup_node_mem g n info hlo
    cases hin : info.incoming with
    | nil =>
      left
      unfold find_entry_points
      refine List.mem_map.mpr ⟨(n, info), ?_, rfl⟩
      rw [List.mem_filter]
      refine ⟨hng, ?_⟩
      simp [hin]
    | cons e es =>
      right
      have he : e ∈ info.incoming := by
        rw [hin]
        exact List.mem_cons_self e es
      have h2 := hwf.2.1 (n, info) hng e he
      obtain ⟨q, hqg, hq1, hq2⟩ := hwf.2.2.2.2.2.2.2.2 (n, info) hng e he
      have hpair := edge_pairs_of_outgoing g q e hqg hq2
      rw [h2.1] at hpair
      exact ⟨e.source, hpair, fun h => absurd h (List.not_mem_nil _)⟩
  · intro n
    simp
  · intro n
    simp
  · intro i v hi u hrel
    cases i with
    | zero => exact absurd hi (by simp)
    | succ i => exact absurd hi (by simp)

/-- If every edge strictly increases the node id, the graph is acyclic. -/
theorem acyclic_of_increasing (g : Graph)
    (hinc : ∀ p ∈ edge_pairs g, p.1 < p.2) : Acyclic g := by
  intro n hcyc
  have hmono : ∀ a b : Nat, Relation.TransGen (EdgeRel g) a b → a < b := by
    intro a b h
    induction h with
    | single h => exact hinc _ h
    | tail _ h ihab => exact Nat.lt_trans ihab (hinc _ h)
  exact absurd (hmono n n hcyc) (Nat.lt_irrefl n)

/-- If the queue is drained and every unfinished node waits on an
unfinished dependency, then — by acyclicity — every node is finished. -/
theorem all_completed_of_blocked (g : Graph) (hwf : WellFormed g) (hacyc : Acyclic g)
    (completed : List Nat)
    (hblock : ∀ n ∈ graph_keys g, n ∉ completed →
      ∃ d, EdgeRel g d n ∧ d ∉ completed) :
    ∀ n ∈ graph_keys g, n ∈ completed := by
  by_contra hcon
  push_neg at hcon
  obtain ⟨n0, hn0K, hn0C⟩ := hcon
  have hstep : ∀ t : { x : Nat // x ∈ graph_keys g ∧ x ∉ completed },
      ∃ s : { x : Nat // x ∈ graph_keys g ∧ x ∉ completed },
        EdgeRel g s.val t.val := by
    rintro ⟨x, hxK, hxC⟩
    obtain ⟨d, hd1, hd2⟩ := hblock x hxK hxC
    exact ⟨⟨d, (edgeRel_mem_keys g hwf d x hd1).1, hd2⟩, hd1⟩
  choose next hnext using hstep
  have hfinK : Finite { x : Nat // x ∈ graph_keys g } := by
    have hset := List.finite_toSet (graph_keys g)
    exact hset.to_subtype
  have hfinT : Finite { x : Nat // x ∈ graph_keys g ∧ x ∉ completed } := by
    refine Finite.of_injective
      (fun t : { x : Nat // x ∈ graph_keys g ∧ x ∉ completed } =>
        (⟨t.val, t.prop.1⟩ : { x : Nat // x ∈ graph_keys g })) ?_
    rintro ⟨a, ha⟩ ⟨b, hb⟩ h
    simpa using congrArg Subtype.val h
  set f : Nat → { x : Nat // x ∈ graph_keys g ∧ x ∉ completed } :=
    fun k => next^[k] ⟨n0, hn0K, hn0C⟩ with hf
  have hchain : ∀ k, EdgeRel g (f (k + 1)).val (f k).val := by
    intro k
    have hiter : f (k + 1) = next (f k) := by
      rw [hf]
      exact Function.iterate_succ_apply' next k _
    rw [hiter]
    exact hnext (f k)
  have htrans : ∀ i j : Nat, i < j →
      Relation.TransGen (EdgeRel g) (f j).val (f i).val := by
    intro i j hij
    induction j with
    | zero => omega
    | succ j ihj =>
      rcases Nat.lt_succ_iff_lt_or_eq.mp hij with h | h
      · exact Relation.TransGen.head (hchain j) (ihj h)
      · subst h
        exact Relation.TransGen.single (hchain i)
  obtain ⟨i, j, hne, heq⟩ := Finite.exists_ne_map_eq_of_infinite f
  have key : ∀ i j : Nat, i < j → f i = f j → False := by
    intro i j hij he
    have hcyc := htrans i j hij
    rw [he] at hcyc
    exact hacyc (f j).val hcyc
  rcases Nat.lt_or_ge i j with h | h
  · exact key i j h heq
  · rcases Nat.lt_or_ge j i with h2 | h2
    · exact key j i h2 heq.symm
    · exact hne (by omega)

/-- A non-halted finalization appends exactly one terminal event, which is
neither a `completed` nor a `running` node event. -/
theorem finalize_events_cases (g : Graph) (st : SchedState) (hh : st.halted = false) :
    ∃ ev, (finalize_events g st).events = st.events ++ [ev] ∧
      (∀ n, ev ≠ WorkflowEvent.nodeCompleted n) ∧
      (∀ n, ev ≠ WorkflowEvent.nodeRunning n) := by
  unfold finalize_events
  rw [hh, if_neg Bool.false_ne_true]
  by_cases hb : st.maxIter ≤ st.iter
  · rw [if_pos hb]
    exact ⟨_, rfl, fun n h => WorkflowEvent.noConfusion h,
           fun n h => WorkflowEvent.noConfusion h⟩
  · rw [if_neg hb]
    by_cases hc : st.completed.length = g.length
    · rw [if_pos hc]
      exact ⟨_, rfl, fun n h => WorkflowEvent.noConfusion h,
             fun n h => WorkflowEvent.noConfusion h⟩
    · rw [if_neg hc]
      exact ⟨_, rfl, fun n h => WorkflowEvent.noConfusion h,
             fun n h => WorkflowEvent.noConfusion h⟩

/-- C1 (corrected): for every well-formed acyclic graph with at least one
entry point, run with no pre-existing loops, node executors that never fail,
and a global iteration budget that the run does not exhaust, the scheduler
emits exactly one `running` and exactly one `completed` event per node
(every node executes exactly once), and every `completed` event is preceded
by the `completed` events of all the node's dependencies (topological
order). The unamended claim fails without the budget hypothesis: see the
counterexample. -/
theorem c1_acyclic_every_node_once_topo (g : Graph)
    (execf : Nat → Except String NodeResult) (ctx : WorkflowContext)
    (hwf : WellFormed g) (hacyc : Acyclic g)
    (hentry : find_entry_points g ≠ [])
    (hloops : ctx.activeLoops = [])
    (hexec : ∀ n, ∃ r, execf n = Except.ok r)
    (hfin : (execute_graph g execf (find_entry_points g) ctx).iter < ctx.maxIterations) :
    (∀ n ∈ graph_keys g,
      (execute_graph g execf (find_entry_points g) ctx).events.count
        (WorkflowEvent.nodeCompleted n) = 1 ∧
      (execute_graph g execf (find_entry_points g) ctx).events.count
        (WorkflowEvent.nodeRunning n) = 1) ∧
    (∀ (i v : Nat),
      (execute_graph g execf (find_entry_points g) ctx).events[i]? =
        some (WorkflowEvent.nodeCompleted v) →
      ∀ u, EdgeRel g u v →
        ∃ j : Nat, j < i ∧
          (execute_graph g execf (find_entry_points g) ctx).events[j]? =
            some (WorkflowEvent.nodeCompleted u)) := by
  have hne := hentry
  have hEG : execute_graph g execf (find_entry_points g) ctx =
      finalize_events g (run_while g execf
        (ctx.maxIterations - ctx.currentIteration + 1)
        { queue := find_entry_points g, completed := [],
          nodeStatus := g.map (fun p => (p.1, NodeStatus.pending)),
          nodeOutputs := [], activeLoops := ctx.activeLoops ++ detect_loops g,
          iter := ctx.currentIteration, maxIter := ctx.maxIterations,
          events := [WorkflowEvent.workflowProgress 0], halted := false }) := rfl
  rw [hEG] at hfin ⊢
  have hrun := run_while_inv g execf hwf hexec
    (ctx.maxIterations - ctx.currentIteration + 1)
    { queue := find_entry_points g, completed := [],
      nodeStatus := g.map (fun p => (p.1, NodeStatus.pending)),
      nodeOutputs := [], activeLoops := ctx.activeLoops ++ detect_loops g,
      iter := ctx.currentIteration, maxIter := ctx.maxIterations,
      events := [WorkflowEvent.workflowProgress 0], halted := false }
    (by dsimp only; omega)
    (initial_SInv g hwf hacyc ctx hloops)
  set R := run_while g execf (ctx.maxIterations - ctx.currentIteration + 1)
    { queue := find_entry_points g, completed := [],
      nodeStatus := g.map (fun p => (p.1, NodeStatus.pending)),
      nodeOutputs := [], activeLoops := ctx.activeLoops ++ detect_loops g,
      iter := ctx.currentIteration, maxIter := ctx.maxIterations,
      events := [WorkflowEvent.workflowProgress 0], halted := false } with hRdef
  obtain ⟨hinvR, hstop⟩ := hrun
  obtain ⟨hA, hH, hND, hCK, hQK, hBlock, hCnt, hRun, hTopo⟩ := hinvR
  have hmaxR : R.maxIter = ctx.maxIterations := by
    rw [hRdef]
    exact run_while_maxIter g execf _ _
  have hfe := finalize_events_fields g R
  rw [hfe.2.1] at hfin
  have hqnil : R.queue = [] := by
    rcases hstop with h | h
    · exact h
    · rw [hmaxR] at h
      omega
  have hall : ∀ n ∈ graph_keys g, n ∈ R.completed := by
    apply all_completed_of_blocked g hwf hacyc R.completed
    intro n hnK hnC
    rcases hBlock n hnK hnC with h | h
    · rw [hqnil] at h
      exact absurd h (List.not_mem_nil n)
    · exact h
  obtain ⟨ev, hev, hev1, hev2⟩ := finalize_events_cases g R hH
  rw [hev]
  constructor
  · intro n hnK
    have hc1 := hCnt n
    have hc2 := hRun n
    rw [if_pos (hall n hnK)] at hc1 hc2
    have h01 : List.count (WorkflowEvent.nodeCompleted n) [ev] = 0 := by
      simp [List.count_singleton]
      intro h
      exact absurd h (hev1 n)
    have h02 : List.count (WorkflowEvent.nodeRunning n) [ev] = 0 := by
      simp [List.count_singleton]
      intro h
      exact absurd h (hev2 n)
    constructor
    · rw [List.count_append, hc1, h01]
    · rw [List.count_append, hc2, h02]
  · intro i v hi u hrel
    by_cases hlen : i < R.events.length
    · rw [List.getElem?_append_left hlen] at hi
      obtain ⟨j, hj, hjev⟩ := hTopo i v hi u hrel
      have hjlen : j < R.events.length := by
        rcases List.getElem?_eq_some.mp hjev with ⟨h, _⟩
        exact h
      refine ⟨j, hj, ?_⟩
      rw [List.getElem?_append_left hjlen]
      exact hjev
    · rw [List.getElem?_append_right (Nat.le_of_not_lt hlen)] at hi
      rcases hk : i - R.events.length with _ | k
      · rw [hk] at hi
        simp only [List.getElem?_cons_zero] at hi
        injection hi with hi
        exact absurd hi (hev1 v)
      · rw [hk] at hi
        simp only [List.getElem?_cons_succ, List.getElem?_nil] at hi
        exact Option.noConfusion hi

/-- C1 counterexample to the unamended claim: 101 isolated nodes form an
acyclic graph with 101 entry points and a never-failing executor, yet under
the default 100-iteration budget the run stops one step short — node 100
never receives a `completed` event and the run ends with the bound-exceeded
failure event instead. -/
theorem c1_counterexample :
    Acyclic isolated101 ∧
    find_entry_points isolated101 ≠ [] ∧
    (∀ n, ∃ r, agentExecOk n = Except.ok r) ∧
    (execute_graph isolated101 agentExecOk (find_entry_points isolated101) {}).events.count
      (WorkflowEvent.nodeCompleted 100) = 0 ∧
    (execute_graph isolated101 agentExecOk (find_entry_points isolated101) {}).events.getLast? =
      some (WorkflowEvent.workflowFailedBound 100) := by
  have hpairs : edge_pairs isolated101 = [] := by decide
  refine ⟨?_, by decide, fun n => ⟨_, rfl⟩, by decide, by decide⟩
  intro n hcyc
  cases hcyc with
  | single h =>
    unfold EdgeRel at h
    rw [hpairs] at h
    exact absurd h (List.not_mem_nil _)
  | tail _ h =>
    unfold EdgeRel at h
    rw [hpairs] at h
    exact absurd h (List.not_mem_nil _)

/-- Witness for the amended C1 on the diamond DAG `0 → {1,2} → 3` under the
default 100-step budget: every hypothesis holds concretely and each of the
four nodes runs and completes exactly once, in dependency order. -/
theorem c1_acyclic_every_node_once_topo_witness :
    WellFormed diamondGraph ∧
    Acyclic diamondGraph ∧
    find_entry_points diamondGraph ≠ [] ∧
    ({} : WorkflowContext).activeLoops = [] ∧
    (∀ n, ∃ r, agentExecOk n = Except.ok r) ∧
    (execute_graph diamondGraph agentExecOk (find_entry_points diamondGraph) {}).iter <
      ({} : WorkflowContext).maxIterations ∧
    ((∀ n ∈ graph_keys diamondGraph,
      (execute_graph diamondGraph agentExecOk (find_entry_points diamondGraph) {}).events.count
        (WorkflowEvent.nodeCompleted n) = 1 ∧
      (execute_graph diamondGraph agentExecOk (find_entry_points diamondGraph) {}).events.count
        (WorkflowEvent.nodeRunning n) = 1) ∧
    (∀ (i v : Nat),
      (execute_graph diamondGraph agentExecOk (find_entry_points diamondGraph) {}).events[i]? =
        some (WorkflowEvent.nodeCompleted v) →
      ∀ u, EdgeRel diamondGraph u v →
        ∃ j : Nat, j < i ∧
          (execute_graph diamondGraph agentExecOk (find_entry_points diamondGraph) {}).events[j]? =
            some (WorkflowEvent.nodeCompleted u))) :=
  ⟨by decide, acyclic_of_increasing diamondGraph (by decide), by decide, rfl,
   fun n => ⟨_, rfl⟩, by decide,
   c1_acyclic_every_node_once_topo diamondGraph agentExecOk {} (by decide)
     (acyclic_of_increasing diamondGraph (by decide)) (by decide) rfl
     (fun n => ⟨_, rfl⟩) (by decide)⟩
